import Mathlib

/-!
# Verification of `src/utils.h`

A shallow embedding of the helper routines of `utils.h` and proofs about them.

C strings and `std::string` values are lists of characters.  `size_t` and
`unsigned long` are 64 bits wide (LP64 Linux); they are natural numbers here and the
places where the source relies on wrap-around or saturation carry it explicitly.

The operating system is a parameter.  The pipe helpers run against a `Sys`, the answers
of `readlink` and `opendir`; the lifecycle helpers run against a `Kernel`, the answers
of `stat`, `mkdir`, `unlink`, `remove` and `nftw`, and every call they issue is recorded
in the `World` they act on.  The general theorems hold for every `Sys` and every
`Kernel`; `sys_example`, `sys_linux` and `vfs_kernel` are systems for the examples.
-/

set_option autoImplicit false

namespace Utils

/-! ## Machine constants -/

/-- The largest `size_t` value. -/
def SIZE_MAX : Nat := 18446744073709551615

/-- The value `std::string::npos`, that is `(size_t)-1`. -/
def npos : Nat := SIZE_MAX

/-- The largest `unsigned long` value. -/
def ULONG_MAX : Nat := 18446744073709551615

/-- The largest `int` value; `pid_t` is `int`. -/
def INT_MAX : Nat := 2147483647

/-- The constant `PATH_MAX` of `<limits.h>` on Linux. -/
def PATH_MAX : Nat := 4096

/-! ## `std::string` primitives used by the path helpers -/

/-- Position of the last character of `s` that belongs to `set`, if there is one. -/
def find_last_of? (set : List Char) : List Char → Option Nat
  | [] => none
  | c :: cs =>
    match find_last_of? set cs with
    | some i => some (i + 1)
    | none => if c ∈ set then some 0 else none

/-- The call `s.find_last_of(set)`: the position found, or `npos`. -/
def find_last_of (s set : List Char) : Nat :=
  (find_last_of? set s).getD npos

/-- The call `s.substr(pos, n)`: `none` stands for the `std::out_of_range` exception
thrown when `pos` exceeds the size. -/
def substr (s : List Char) (pos n : Nat) : Option (List Char) :=
  if pos > s.length then none else some ((s.drop pos).take n)

/-- Addition of `size_t` values. -/
def size_add (a b : Nat) : Nat := (a + b) % (SIZE_MAX + 1)

/-- The separator set `"\\/"` of `dir_name` and `base_name`. -/
def separators : List Char := ['\\', '/']

/-- The function `dir_name`: `s.substr(0, s.find_last_of("\\/") + 1)`. -/
def dir_name (s : List Char) : Option (List Char) :=
  substr s 0 (size_add (find_last_of s separators) 1)

/-- The function `base_name`: `s.substr(s.find_last_of("\\/") + 1)`. -/
def base_name (s : List Char) : Option (List Char) :=
  substr s (size_add (find_last_of s separators) 1) npos

/-- Position of the first occurrence of `pat` in `s`, if there is one. -/
def find_first (pat : List Char) : List Char → Option Nat
  | [] => if pat = [] then some 0 else none
  | c :: cs =>
    if pat.isPrefixOf (c :: cs) then some 0
    else (find_first pat cs).map (· + 1)

/-- The call `s.find(pat, pos)`: the lowest position at or after `pos` where `pat`
occurs in `s`; `none` stands for `npos`. -/
def find (s pat : List Char) (pos : Nat) : Option Nat :=
  if pos > s.length then none
  else (find_first pat (s.drop pos)).map (· + pos)

/-- The call `s.replace(pos, len, to)` for `pos` within the string. -/
def replace (s : List Char) (pos len : Nat) (to_ : List Char) : List Char :=
  s.take pos ++ to_ ++ s.drop (pos + len)

/-- The `while` loop of `str_replace_all`, one iteration per unit of fuel; `none` when
the fuel runs out before `find` reports `npos`. -/
def str_replace_all_loop (from_ to_ : List Char) : Nat → List Char → Nat → Option (List Char)
  | 0, _, _ => none
  | fuel + 1, str, start_pos =>
    match find str from_ start_pos with
    | none => some str
    | some p =>
      str_replace_all_loop from_ to_ fuel (replace str p from_.length to_) (p + to_.length)

/-- The function `str_replace_all`, run with one more iteration than `str` has
characters. -/
def str_replace_all (str from_ to_ : List Char) : Option (List Char) :=
  str_replace_all_loop from_ to_ (str.length + 1) str 0

/-- Replacement in the words of the specification, as a single pass over the original
text from left to right: `skip` counts the characters of a matched occurrence that
remain to be passed over; where an occurrence of `from_` starts, `to_` is emitted and the
occurrence is passed over; any other character is copied.  Emitted text is never
looked at again. -/
def replace_scan (from_ to_ : List Char) : Nat → List Char → List Char
  | _, [] => []
  | skip + 1, _ :: cs => replace_scan from_ to_ skip cs
  | 0, c :: cs =>
    if from_.isPrefixOf (c :: cs) then to_ ++ replace_scan from_ to_ (from_.length - 1) cs
    else c :: replace_scan from_ to_ 0 cs

/-! ## C library routines used by the pipe helpers -/

/-- The characters for which `isspace` holds in the C locale. -/
def isspace (c : Char) : Bool :=
  c = ' ' || c = '\t' || c = '\n' || c = '\x0b' || c = '\x0c' || c = '\r'

/-- The characters for which `isdigit` holds. -/
def isdigit (c : Char) : Bool := '0'.toNat ≤ c.toNat && c.toNat ≤ '9'.toNat

/-- The value of a decimal digit character. -/
def digit_value (c : Char) : Nat := c.toNat - '0'.toNat

/-- The number a string of decimal digits denotes. -/
def decimal_value (ds : List Char) : Nat :=
  ds.foldl (fun acc c => 10 * acc + digit_value c) 0

/-- The optional sign that `strtoul` accepts: whether it is a minus, and what follows. -/
def strtoul_sign : List Char → Bool × List Char
  | '-' :: r => (true, r)
  | '+' :: r => (false, r)
  | s => (false, s)

/-- The call `strtoul(s, &end, 10)`: the value and the text `end` points at.  White space
is skipped, one sign is accepted, then the longest run of digits is converted; without
a digit nothing is converted and `end` is `s`; a value above `ULONG_MAX` yields
`ULONG_MAX`; after a minus sign the value is negated as an `unsigned long`. -/
def strtoul (s : List Char) : Nat × List Char :=
  let signed := strtoul_sign (s.dropWhile isspace)
  let ds := signed.2.takeWhile isdigit
  if ds = [] then (0, s)
  else
    let v := decimal_value ds
    let r := if v > ULONG_MAX then ULONG_MAX
      else if signed.1 then (ULONG_MAX + 1 - v) % (ULONG_MAX + 1) else v
    (r, signed.2.dropWhile isdigit)

/-- The C string held by a character buffer: the characters before the first NUL. -/
def c_str (buf : List Char) : List Char := buf.takeWhile (· ≠ '\x00')

/-- The call `strncmp(a, b, n)` on C strings, up to the sign of the result. -/
def strncmp : List Char → List Char → Nat → Int
  | _, _, 0 => 0
  | [], [], _ + 1 => 0
  | [], _ :: _, _ + 1 => -1
  | _ :: _, [], _ + 1 => 1
  | x :: a, y :: b, n + 1 =>
    if x = y then strncmp a b n else if x.toNat < y.toNat then -1 else 1

/-! ## The operating system as the pipe helpers see it -/

/-- The field `d_type` of a `struct dirent`. -/
inductive DType
  | DT_UNKNOWN | DT_FIFO | DT_CHR | DT_DIR | DT_BLK | DT_REG | DT_LNK | DT_SOCK
  deriving DecidableEq, Repr

/-- The fields of a `struct dirent` that the source reads.  The member `d_name` is a
C string of at most 255 characters. -/
structure Dirent where
  d_name : List Char
  d_type : DType
  deriving DecidableEq, Repr

/-- What the system calls of the pipe helpers answer.  `readlink path` is the target of
the symbolic link at `path`, or `none` when the call fails; `opendir path` is the
sequence of entries that `readdir` then delivers, or `none` when the directory cannot
be opened. -/
structure Sys where
  readlink : List Char → Option (List Char)
  opendir : List Char → Option (List Dirent)

/-- What a call of `check_pipe_reader` does: it returns to its caller, or it calls
`sleep(seconds)` and then `exit(status)`. -/
inductive Outcome
  | returns
  | sleep_then_exit (seconds status : Nat)
  deriving DecidableEq, Repr

/-! ## The pipe helpers -/

/-- The marker `"pipe:["`.  The macro `OBF` of `obfuscate.h`, in which the source wraps
its string literals, hides a literal in the binary and yields it unchanged at run time. -/
def pipe_marker : List Char := ['p', 'i', 'p', 'e', ':', '[']

/-- The function `get_pipe_id`.  `readlink` stores at most `sizeof(dst) = PATH_MAX`
characters of the target into the zeroed buffer `dst`. -/
def get_pipe_id (sys : Sys) (path : List Char) : Nat :=
  match sys.readlink path with
  | none => 0
  | some target =>
    let dst := c_str (target.take PATH_MAX)
    if strncmp dst pipe_marker 6 ≠ 0 then 0
    else (strtoul (dst.drop 6)).1

/-- The inner `while` loop of `check_pipe_reader` over the entries of one descriptor
directory; `buf` is the path of that directory followed by `/`. -/
def scan_fd_dir (sys : Sys) (pipe_id : Nat) (buf : List Char) : List Dirent → Outcome
  | [] => Outcome.returns
  | entry :: rest =>
    if entry.d_type ≠ DType.DT_LNK then scan_fd_dir sys pipe_id buf rest
    else if pipe_id = get_pipe_id sys (buf ++ entry.d_name) then Outcome.sleep_then_exit 3 1
    else scan_fd_dir sys pipe_id buf rest

/-- The outer `while` loop of `check_pipe_reader` over the entries of `/proc`. -/
def scan_proc_dir (sys : Sys) (mypid ppid pipe_id : Nat) : List Dirent → Outcome
  | [] => Outcome.returns
  | entry :: rest =>
    if entry.d_type ≠ DType.DT_DIR then scan_proc_dir sys mypid ppid pipe_id rest
    else
      let pid := (strtoul entry.d_name).1
      let end_ := (strtoul entry.d_name).2
      if pid = 0 ∨ end_ ≠ [] then scan_proc_dir sys mypid ppid pipe_id rest
      else if pid = mypid ∨ pid = ppid then scan_proc_dir sys mypid ppid pipe_id rest
      else
        let buf := "/proc/".toList ++ entry.d_name ++ "/fd".toList
        match sys.opendir buf with
        | none => scan_proc_dir sys mypid ppid pipe_id rest
        | some fds =>
          match scan_fd_dir sys pipe_id (buf ++ ['/']) fds with
          | Outcome.returns => scan_proc_dir sys mypid ppid pipe_id rest
          | out => out

/-- The function `check_pipe_reader`; `mypid` and `ppid` are what `getpid()` and
`getppid()` answer. -/
def check_pipe_reader (sys : Sys) (mypid ppid pipe_id : Nat) : Outcome :=
  match sys.opendir "/proc".toList with
  | none => Outcome.returns
  | some entries => scan_proc_dir sys mypid ppid pipe_id entries

/-! ## The operating system as the lifecycle helpers see it -/

/-- The file types that the `S_IFMT` bits of `st_mode` tell apart. -/
inductive FileType
  | S_IFREG | S_IFDIR | S_IFLNK | S_IFCHR | S_IFBLK | S_IFIFO | S_IFSOCK
  deriving DecidableEq, Repr

/-- Values of `errno`. -/
abbrev Errno := Nat

/-- The error number `ENOENT`. -/
def ENOENT : Errno := 2

/-- The error number `EBUSY`. -/
def EBUSY : Errno := 16

/-- The error number `EEXIST`. -/
def EEXIST : Errno := 17

/-- The error number `ENOTDIR`. -/
def ENOTDIR : Errno := 20

/-- The error number `EISDIR`. -/
def EISDIR : Errno := 21

/-- The error number `ENAMETOOLONG`. -/
def ENAMETOOLONG : Errno := 36

/-- The error number `ENOTEMPTY`. -/
def ENOTEMPTY : Errno := 39

/-- The error number `ELOOP`. -/
def ELOOP : Errno := 40

/-- The mode `S_IRWXU`, the default of the parameter `mode` of `mkdir_recursive`. -/
def S_IRWXU : Nat := 448

/-- The flag `FTW_PHYS` of `nftw`. -/
def FTW_PHYS : Nat := 1

/-- The flag `FTW_DEPTH` of `nftw`. -/
def FTW_DEPTH : Nat := 8

/-- The system and library calls of the lifecycle helpers, as any system may answer
them; `σ` is the type of the states of its file system.  `stat` and `lstat` answer with
the file type or fail; `mkdir`, `unlink` and `remove` answer with the state they leave
or fail; `nftw_visits s dirpath flags` lists the path names that a walk
`nftw(dirpath, fn, nopenfd, flags)` started in state `s` hands to `fn`, in order. -/
structure Kernel (σ : Type) where
  stat : σ → List Char → Except Errno FileType
  lstat : σ → List Char → Except Errno FileType
  mkdir : σ → List Char → Nat → Except Errno σ
  unlink : σ → List Char → Except Errno σ
  remove : σ → List Char → Except Errno σ
  nftw_visits : σ → List Char → Nat → List (List Char)

/-- What POSIX promises of the calls and the theorems below rely on: `stat` follows
symbolic links, so it never reports one, and the empty path names nothing. -/
structure Posix {σ : Type} (k : Kernel σ) : Prop where
  stat_follows_links : ∀ s path, k.stat s path ≠ Except.ok FileType.S_IFLNK
  stat_empty_path : ∀ s, k.stat s [] = Except.error ENOENT
  mkdir_empty_path : ∀ s mode, k.mkdir s [] mode = Except.error ENOENT

/-- A call that reached the system, with its arguments and its answer: the file type
for `stat` (`none` when it failed), the error for `mkdir`, `unlink` and `remove` (`none`
when they succeeded). -/
inductive Call
  | stat (path : List Char) (answer : Option FileType)
  | mkdir (path : List Char) (mode : Nat) (error : Option Errno)
  | unlink (path : List Char) (error : Option Errno)
  | remove (path : List Char) (error : Option Errno)
  | nftw (dirpath : List Char) (nopenfd flags : Nat)
  deriving DecidableEq, Repr

/-- The path a call was issued for. -/
def Call.path : Call → List Char
  | Call.stat p _ => p
  | Call.mkdir p _ _ => p
  | Call.unlink p _ => p
  | Call.remove p _ => p
  | Call.nftw p _ _ => p

/-- The calls by which the destructor of `AutoCleaner` deletes a registered path: a walk
`nftw` and a direct `unlink`. -/
def Call.is_deletion : Call → Bool
  | Call.unlink _ _ => true
  | Call.nftw _ _ _ => true
  | _ => false

/-- The calls `mkdir`. -/
def Call.is_mkdir : Call → Bool
  | Call.mkdir _ _ _ => true
  | _ => false

/-- The state of the file system together with the calls issued so far, oldest first. -/
structure World (σ : Type) where
  state : σ
  trace : List Call
  deriving DecidableEq

/-- The call `stat(path, &st)`: the world afterwards and the file type in `st.st_mode`,
`none` when the call returns -1. -/
def stat {σ : Type} (k : Kernel σ) (w : World σ) (path : List Char) :
    World σ × Option FileType :=
  match k.stat w.state path with
  | Except.ok t => (⟨w.state, w.trace ++ [Call.stat path (some t)]⟩, some t)
  | Except.error _ => (⟨w.state, w.trace ++ [Call.stat path none]⟩, none)

/-- The call `mkdir(path, mode)`: the world afterwards and the value returned. -/
def mkdir {σ : Type} (k : Kernel σ) (w : World σ) (path : List Char) (mode : Nat) :
    World σ × Int :=
  match k.mkdir w.state path mode with
  | Except.ok s => (⟨s, w.trace ++ [Call.mkdir path mode none]⟩, 0)
  | Except.error e => (⟨w.state, w.trace ++ [Call.mkdir path mode (some e)]⟩, -1)

/-- The call `unlink(path)`: the world afterwards and the value returned. -/
def unlink {σ : Type} (k : Kernel σ) (w : World σ) (path : List Char) : World σ × Int :=
  match k.unlink w.state path with
  | Except.ok s => (⟨s, w.trace ++ [Call.unlink path none]⟩, 0)
  | Except.error e => (⟨w.state, w.trace ++ [Call.unlink path (some e)]⟩, -1)

/-- The call `remove(path)` of `<stdio.h>`: the world afterwards and the value
returned. -/
def remove {σ : Type} (k : Kernel σ) (w : World σ) (path : List Char) : World σ × Int :=
  match k.remove w.state path with
  | Except.ok s => (⟨s, w.trace ++ [Call.remove path none]⟩, 0)
  | Except.error e => (⟨w.state, w.trace ++ [Call.remove path (some e)]⟩, -1)

/-- The walk of `nftw` over the path names it visits: `fn` is called on each in turn,
and the walk stops with the value of `fn` once that is not 0. -/
def nftw_loop {σ : Type} (fn : World σ → List Char → World σ × Int) :
    World σ → List (List Char) → World σ × Int
  | w, [] => (w, 0)
  | w, pathname :: rest =>
    if (fn w pathname).2 ≠ 0 then fn w pathname
    else nftw_loop fn (fn w pathname).1 rest

/-- The call `nftw(dirpath, fn, nopenfd, flags)`. -/
def nftw {σ : Type} (k : Kernel σ) (w : World σ) (dirpath : List Char)
    (fn : World σ → List Char → World σ × Int) (nopenfd flags : Nat) : World σ × Int :=
  nftw_loop fn ⟨w.state, w.trace ++ [Call.nftw dirpath nopenfd flags]⟩
    (k.nftw_visits w.state dirpath flags)

/-- The macro `S_ISDIR`. -/
def S_ISDIR (t : FileType) : Bool := t = FileType.S_IFDIR

/-- The macro `S_ISLNK`. -/
def S_ISLNK (t : FileType) : Bool := t = FileType.S_IFLNK

/-! ## The lifecycle helpers -/

/-- The callback `_remove_file`: `remove(pathname)`, whose result is dropped; it
returns 0. -/
def _remove_file {σ : Type} (k : Kernel σ) (w : World σ) (pathname : List Char) :
    World σ × Int :=
  ((remove k w pathname).1, 0)

/-- The function `remove_directory`:
`nftw(dir, _remove_file, 10, FTW_DEPTH | FTW_PHYS)`, whose result is dropped. -/
def remove_directory {σ : Type} (k : Kernel σ) (w : World σ) (dir : List Char) : World σ :=
  (nftw k w dir (_remove_file k) 10 (FTW_DEPTH ||| FTW_PHYS)).1

/-- The function `is_dir`: `stat(path, &st) == 0 && S_ISDIR(st.st_mode)`. -/
def is_dir {σ : Type} (k : Kernel σ) (w : World σ) (path : List Char) : World σ × Bool :=
  match stat k w path with
  | (w', some st) => (w', S_ISDIR st)
  | (w', none) => (w', false)

/-- The function `is_symlink`: `stat(path, &st) == 0 && S_ISLNK(st.st_mode)`. -/
def is_symlink {σ : Type} (k : Kernel σ) (w : World σ) (path : List Char) :
    World σ × Bool :=
  match stat k w path with
  | (w', some st) => (w', S_ISLNK st)
  | (w', none) => (w', false)

/-- The test `!is_dir(tmp) && mkdir(tmp, mode) != 0` of `mkdir_recursive`: the world
afterwards and whether the test holds.  `mkdir` is called only when `is_dir` answers
false. -/
def mkdir_unless_dir {σ : Type} (k : Kernel σ) (mode : Nat) (w : World σ)
    (tmp : List Char) : World σ × Bool :=
  if (is_dir k w tmp).2 = true then ((is_dir k w tmp).1, false)
  else ((mkdir k (is_dir k w tmp).1 tmp mode).1,
    decide ((mkdir k (is_dir k w tmp).1 tmp mode).2 ≠ 0))

/-- The `for` loop of `mkdir_recursive` and the statements after it.  `before` holds the
characters of `tmp` in front of `p`, the last argument those from `p` on. -/
def mkdir_walk {σ : Type} (k : Kernel σ) (mode : Nat) :
    World σ → List Char → List Char → World σ × Int
  | w, before, [] =>
    if (mkdir_unless_dir k mode w before).2 = true then
      ((mkdir_unless_dir k mode w before).1, -1)
    else ((mkdir_unless_dir k mode w before).1, 0)
  | w, before, c :: after =>
    if c = '/' then
      if (mkdir_unless_dir k mode w before).2 = true then
        ((mkdir_unless_dir k mode w before).1, -1)
      else mkdir_walk k mode (mkdir_unless_dir k mode w before).1 (before ++ [c]) after
    else mkdir_walk k mode w (before ++ [c]) after

/-- The buffer `tmp` of `mkdir_recursive` when the loop starts: `dir` without one
trailing `/`. -/
def mkdir_tmp (dir : List Char) : List Char :=
  if dir.getLast? = some '/' then dir.dropLast else dir

/-- The function `mkdir_recursive`: the world afterwards and the value returned.  The
result is `none` where the behaviour of the C code is undefined: for the empty string,
where `tmp[len - 1]` lies outside `tmp`, and for a string of `PATH_MAX` characters or
more, which `strncpy` leaves unterminated. -/
def mkdir_recursive {σ : Type} (k : Kernel σ) (w : World σ) (dir : List Char)
    (mode : Nat) : Option (World σ × Int) :=
  if dir = [] ∨ PATH_MAX ≤ dir.length then none
  else some (mkdir_walk k mode w ((mkdir_tmp dir).take 1) ((mkdir_tmp dir).drop 1))

/-- The class `AutoCleaner`: its member `m_paths`. -/
structure AutoCleaner where
  m_paths : List (List Char)
  deriving DecidableEq, Repr

/-- The member function `AutoCleaner::add`; it issues no call. -/
def AutoCleaner.add {σ : Type} (self : AutoCleaner) (path : List Char) (w : World σ) :
    AutoCleaner × World σ :=
  (⟨self.m_paths ++ [path]⟩, w)

/-- The body of the `for` loop of the destructor, for one path; the result of `unlink`
is dropped. -/
def AutoCleaner.delete_path {σ : Type} (k : Kernel σ) (w : World σ) (path : List Char) :
    World σ :=
  if (is_dir k w path).2 = true then remove_directory k (is_dir k w path).1 path
  else (unlink k (is_dir k w path).1 path).1

/-- The destructor `AutoCleaner::~AutoCleaner`. -/
def AutoCleaner.destroy {σ : Type} (k : Kernel σ) (self : AutoCleaner) (w : World σ) :
    World σ :=
  self.m_paths.foldl (AutoCleaner.delete_path k) w

/-- A sequence of `add` calls, one per path, in order. -/
def AutoCleaner.add_all {σ : Type} (self : AutoCleaner) (w : World σ) :
    List (List Char) → AutoCleaner × World σ
  | [] => (self, w)
  | p :: ps => AutoCleaner.add_all (self.add p w).1 (self.add p w).2 ps

/-! ## The lifecycle helpers in the words of their description -/

/-- The leading parts of `tmp` that `mkdir_recursive` is to ensure, shortest first: each
non-empty proper leading part that a `/` follows, and then `tmp` itself. -/
def mkdir_candidates (tmp : List Char) : List (List Char) :=
  (tmp.inits.filter (fun q =>
      decide (0 < q.length ∧ q.length < tmp.length ∧ tmp.get? q.length = some '/'))) ++ [tmp]

/-- The leading parts still to be ensured when the loop of `mkdir_recursive` stands
between `before` and `after`: `before` followed by each proper leading part of `after`
that a `/` follows, shortest first, and then the whole. -/
def mkdir_candidates_from (before after : List Char) : List (List Char) :=
  (after.inits.filter (fun q =>
      decide (q.length < after.length ∧ after.get? q.length = some '/'))).map (before ++ ·)
    ++ [before ++ after]

/-- The answer of `stat` as the helpers see it: the file type, or `none` when the call
fails. -/
def stat_answer {σ : Type} (k : Kernel σ) (s : σ) (path : List Char) : Option FileType :=
  match k.stat s path with
  | Except.ok t => some t
  | Except.error _ => none

/-- Ensuring a list of directories in turn.  `EnsureRun k mode s cs evs ret s'` holds when,
from state `s`, the directories `cs` taken in order give rise to the calls `evs`, the
result `ret` and the state `s'`: each directory is looked at with `stat`; one that
`stat` reports as a directory is passed over; any other is created with `mkdir`; a
`mkdir` that fails ends the run at once with -1; a run that reaches the end of the
list ends with 0. -/
inductive EnsureRun {σ : Type} (k : Kernel σ) (mode : Nat) :
    σ → List (List Char) → List Call → Int → σ → Prop
  | done (s : σ) : EnsureRun k mode s [] [] 0 s
  | present (s s' : σ) (c : List Char) (cs : List (List Char)) (evs : List Call) (ret : Int) :
      stat_answer k s c = some FileType.S_IFDIR →
      EnsureRun k mode s cs evs ret s' →
      EnsureRun k mode s (c :: cs) (Call.stat c (some FileType.S_IFDIR) :: evs) ret s'
  | created (s s1 s' : σ) (c : List Char) (cs : List (List Char)) (evs : List Call)
      (ret : Int) :
      stat_answer k s c ≠ some FileType.S_IFDIR →
      k.mkdir s c mode = Except.ok s1 →
      EnsureRun k mode s1 cs evs ret s' →
      EnsureRun k mode s (c :: cs)
        (Call.stat c (stat_answer k s c) :: Call.mkdir c mode none :: evs) ret s'
  | failed (s : σ) (c : List Char) (cs : List (List Char)) (e : Errno) :
      stat_answer k s c ≠ some FileType.S_IFDIR →
      k.mkdir s c mode = Except.error e →
      EnsureRun k mode s (c :: cs)
        [Call.stat c (stat_answer k s c), Call.mkdir c mode (some e)] (-1) s

/-- The calls and the final state of `remove` applied to path names in turn, each
failure being passed over. -/
inductive RemoveRun {σ : Type} (k : Kernel σ) : σ → List (List Char) → List Call → σ → Prop
  | done (s : σ) : RemoveRun k s [] [] s
  | removed (s s1 s' : σ) (q : List Char) (qs : List (List Char)) (evs : List Call) :
      k.remove s q = Except.ok s1 →
      RemoveRun k s1 qs evs s' →
      RemoveRun k s (q :: qs) (Call.remove q none :: evs) s'
  | kept (s s' : σ) (q : List Char) (qs : List (List Char)) (evs : List Call) (e : Errno) :
      k.remove s q = Except.error e →
      RemoveRun k s qs evs s' →
      RemoveRun k s (q :: qs) (Call.remove q (some e) :: evs) s'

/-- Deleting registered paths in turn.  `CleanupRun k s ps evs s'` holds when, from state
`s`, the paths `ps` taken in order give rise to the calls `evs` and the state `s'`:
each path is looked at with `stat`; one that `stat` reports as a directory is handed
to `nftw(path, _, 10, FTW_DEPTH | FTW_PHYS)`, and `remove` is applied to every path name
the walk visits; any other path is handed to `unlink`; no failure ends the run. -/
inductive CleanupRun {σ : Type} (k : Kernel σ) : σ → List (List Char) → List Call → σ → Prop
  | done (s : σ) : CleanupRun k s [] [] s
  | directory (s s1 s' : σ) (p : List Char) (ps : List (List Char)) (walk rest : List Call) :
      stat_answer k s p = some FileType.S_IFDIR →
      RemoveRun k s (k.nftw_visits s p (FTW_DEPTH ||| FTW_PHYS)) walk s1 →
      CleanupRun k s1 ps rest s' →
      CleanupRun k s (p :: ps)
        (Call.stat p (some FileType.S_IFDIR) :: Call.nftw p 10 (FTW_DEPTH ||| FTW_PHYS) ::
          (walk ++ rest)) s'
  | unlinked (s s1 s' : σ) (p : List Char) (ps : List (List Char)) (rest : List Call) :
      stat_answer k s p ≠ some FileType.S_IFDIR →
      k.unlink s p = Except.ok s1 →
      CleanupRun k s1 ps rest s' →
      CleanupRun k s (p :: ps)
        (Call.stat p (stat_answer k s p) :: Call.unlink p none :: rest) s'
  | missed (s s' : σ) (p : List Char) (ps : List (List Char)) (rest : List Call) (e : Errno) :
      stat_answer k s p ≠ some FileType.S_IFDIR →
      k.unlink s p = Except.error e →
      CleanupRun k s ps rest s' →
      CleanupRun k s (p :: ps)
        (Call.stat p (stat_answer k s p) :: Call.unlink p (some e) :: rest) s'

/-! ## A file system for the examples

One system among those that `Kernel` ranges over: a table of files under their
canonical names, with a working directory, and path resolution by components. -/

/-- What a name of the table stands for: a regular file, a directory, or a symbolic link
with its target. -/
inductive Node
  | reg
  | dir
  | lnk (target : List Char)
  deriving DecidableEq, Repr

/-- A state of the example file system: the files, each under its canonical name (the
components from the root down, the root itself being `[]`), and the working
directory. -/
structure Vfs where
  nodes : List (List (List Char) × Node)
  cwd : List (List Char)
  deriving DecidableEq, Repr

/-- The constant `NAME_MAX`. -/
def NAME_MAX : Nat := 255

/-- The number of symbolic links that one path resolution follows at most. -/
def SYMLOOP_MAX : Nat := 40

/-- A bound on the steps of one path resolution: a path has fewer than `PATH_MAX`
components, and so has each of the at most `SYMLOOP_MAX` link targets spliced in. -/
def WALK_FUEL : Nat := 167936

/-- The pieces of a path between its slashes. -/
def split_slash : List Char → List (List Char)
  | [] => [[]]
  | c :: cs =>
    if c = '/' then [] :: split_slash cs
    else
      match split_slash cs with
      | [] => [[c]]
      | piece :: pieces => (c :: piece) :: pieces

/-- The components of a path: the non-empty pieces between its slashes. -/
def path_components (path : List Char) : List (List Char) :=
  (split_slash path).filter (fun piece => piece ≠ [])

/-- What stands under a canonical name; the root is always a directory. -/
def Vfs.lookup (v : Vfs) (name : List (List Char)) : Option Node :=
  if name = [] then some Node.dir
  else (v.nodes.find? (fun entry => entry.1 = name)).map (·.2)

/-- Path resolution: from the directory `cur`, the components still to be looked up are
taken one by one; `.` and `..` move within the tree, a symbolic link met on the way is
replaced by the components of its target, and so is one met at the end when `follow`
is set.  The result is the canonical name reached; its last component need not exist. -/
def Vfs.walk (v : Vfs) (follow : Bool) :
    Nat → Nat → List (List Char) → List (List Char) → Except Errno (List (List Char))
  | 0, _, _, _ => Except.error ELOOP
  | _ + 1, _, cur, [] => Except.ok cur
  | fuel + 1, hops, cur, c :: rest =>
    match v.lookup cur with
    | none => Except.error ENOENT
    | some Node.dir =>
      if c = ['.'] then Vfs.walk v follow fuel hops cur rest
      else if c = ['.', '.'] then Vfs.walk v follow fuel hops cur.dropLast rest
      else if NAME_MAX < c.length then Except.error ENAMETOOLONG
      else
        match v.lookup (cur ++ [c]) with
        | some (Node.lnk target) =>
          if rest = [] ∧ follow = false then Except.ok (cur ++ [c])
          else if hops = 0 then Except.error ELOOP
          else if target = [] then Except.error ENOENT
          else
            Vfs.walk v follow fuel (hops - 1) (if target.head? = some '/' then [] else cur)
              (path_components target ++ rest)
        | some _ => Vfs.walk v follow fuel hops (cur ++ [c]) rest
        | none => if rest = [] then Except.ok (cur ++ [c]) else Except.error ENOENT
    | some _ => Except.error ENOTDIR

/-- Resolution of a path as a system call receives it.  With `slash_is_dot` a trailing
slash counts as a final component `.`, which asks for a directory. -/
def Vfs.resolve (v : Vfs) (follow slash_is_dot : Bool) (path : List Char) :
    Except Errno (List (List Char)) :=
  if path = [] then Except.error ENOENT
  else if PATH_MAX ≤ path.length then Except.error ENAMETOOLONG
  else
    Vfs.walk v follow WALK_FUEL SYMLOOP_MAX (if path.head? = some '/' then [] else v.cwd)
      (path_components path ++
        (if slash_is_dot = true ∧ path.getLast? = some '/' then [['.']] else []))

/-- The file type of what a resolved name stands for. -/
def Vfs.type_at (v : Vfs) (follow : Bool) (name : List (List Char)) :
    Except Errno FileType :=
  match v.lookup name with
  | none => Except.error ENOENT
  | some Node.reg => Except.ok FileType.S_IFREG
  | some Node.dir => Except.ok FileType.S_IFDIR
  | some (Node.lnk _) =>
    if follow = true then Except.error ELOOP else Except.ok FileType.S_IFLNK

/-- The call `stat` of the example file system. -/
def Vfs.stat (v : Vfs) (path : List Char) : Except Errno FileType :=
  match v.resolve true true path with
  | Except.ok name => v.type_at true name
  | Except.error e => Except.error e

/-- The call `lstat` of the example file system. -/
def Vfs.lstat (v : Vfs) (path : List Char) : Except Errno FileType :=
  match v.resolve false true path with
  | Except.ok name => v.type_at false name
  | Except.error e => Except.error e

/-- The names directly inside a directory. -/
def Vfs.children (v : Vfs) (name : List (List Char)) : List (List Char) :=
  v.nodes.filterMap (fun entry =>
    if entry.1 ≠ [] ∧ entry.1.dropLast = name then entry.1.getLast? else none)

/-- The table without a name. -/
def Vfs.erase (v : Vfs) (name : List (List Char)) : Vfs :=
  ⟨v.nodes.filter (fun entry => entry.1 ≠ name), v.cwd⟩

/-- The call `mkdir` of the example file system; permission bits are not kept. -/
def Vfs.mkdir (v : Vfs) (path : List Char) : Except Errno Vfs :=
  match v.resolve false false path with
  | Except.error e => Except.error e
  | Except.ok name =>
    match v.lookup name with
    | some _ => Except.error EEXIST
    | none =>
      if v.lookup name.dropLast = some Node.dir then
        Except.ok ⟨v.nodes ++ [(name, Node.dir)], v.cwd⟩
      else Except.error ENOENT

/-- The call `unlink` of the example file system. -/
def Vfs.unlink (v : Vfs) (path : List Char) : Except Errno Vfs :=
  match v.resolve false true path with
  | Except.error e => Except.error e
  | Except.ok name =>
    match v.lookup name with
    | none => Except.error ENOENT
    | some Node.dir => Except.error EISDIR
    | some _ => Except.ok (v.erase name)

/-- The call `rmdir` of the example file system. -/
def Vfs.rmdir (v : Vfs) (path : List Char) : Except Errno Vfs :=
  match v.resolve false false path with
  | Except.error e => Except.error e
  | Except.ok name =>
    match v.lookup name with
    | none => Except.error ENOENT
    | some Node.dir =>
      if name = [] then Except.error EBUSY
      else if v.children name ≠ [] then Except.error ENOTEMPTY
      else Except.ok (v.erase name)
    | some _ => Except.error ENOTDIR

/-- The call `remove` of the example file system: `unlink`, and `rmdir` when `unlink`
fails with `EISDIR`. -/
def Vfs.remove (v : Vfs) (path : List Char) : Except Errno Vfs :=
  match v.unlink path with
  | Except.ok v' => Except.ok v'
  | Except.error e => if e = EISDIR then v.rmdir path else Except.error e

/-- A path name and a component joined by one slash. -/
def join_path (pathname component : List Char) : List Char :=
  if pathname.getLast? = some '/' then pathname ++ component
  else pathname ++ '/' :: component

/-- The path names below and at `pathname`, which stands for the canonical name `name`,
in the order of a walk that does not follow symbolic links and reports the entries of
a directory before the directory; `depth` bounds the nesting. -/
def Vfs.visits (v : Vfs) : Nat → List Char → List (List Char) → List (List Char)
  | 0, _, _ => []
  | depth + 1, pathname, name =>
    match v.lookup name with
    | none => []
    | some Node.dir =>
      (v.children name).foldr
        (fun component acc =>
          Vfs.visits v depth (join_path pathname component) (name ++ [component]) ++ acc)
        [] ++ [pathname]
    | some _ => [pathname]

/-- The path without its trailing slashes, of which one is kept when nothing else is
left. -/
def strip_trailing_slashes (path : List Char) : List Char :=
  if (path.reverse.dropWhile (· = '/')).reverse = [] then path.take 1
  else (path.reverse.dropWhile (· = '/')).reverse

/-- The path names that `nftw` with `FTW_DEPTH | FTW_PHYS` visits in the example file
system. -/
def Vfs.nftw_visits (v : Vfs) (dirpath : List Char) : List (List Char) :=
  match v.resolve false true dirpath with
  | Except.error _ => []
  | Except.ok name => Vfs.visits v (v.nodes.length + 1) (strip_trailing_slashes dirpath) name

/-- The example file system as a `Kernel`. -/
def vfs_kernel : Kernel Vfs where
  stat := Vfs.stat
  lstat := Vfs.lstat
  mkdir := fun v path _ => Vfs.mkdir v path
  unlink := Vfs.unlink
  remove := Vfs.remove
  nftw_visits := fun v dirpath _ => Vfs.nftw_visits v dirpath

/-- A state of the example file system: a regular file `/a`, a directory `/tmp` holding
a directory `d` with a file `f` in it, a file `/tmp/x` and a symbolic link `/tmp/l` to
it; the working directory is the root. -/
def vfs_example : Vfs where
  nodes :=
    [(["a".toList], Node.reg), (["tmp".toList], Node.dir),
     (["tmp".toList, "d".toList], Node.dir),
     (["tmp".toList, "d".toList, "f".toList], Node.reg),
     (["tmp".toList, "x".toList], Node.reg),
     (["tmp".toList, "l".toList], Node.lnk "x".toList)]
  cwd := []

/-! ## Concrete systems used in the examples -/

/-- A system in which `/proc/7/fd/1` is a link whose target carries the marker and the
twenty digits of `2^64`. -/
def sys_wide_digits : Sys where
  readlink := fun p =>
    if p = "/proc/7/fd/1".toList then some "pipe:[18446744073709551616]".toList else none
  opendir := fun _ => none

/-- A system with one process besides the caller, PID 7, whose descriptor 0 is a socket
and whose descriptor 1 is the pipe 98765; the caller is PID 100 and holds the same pipe
on its descriptor 1. -/
def sys_example : Sys where
  readlink := fun p =>
    if p = "/proc/7/fd/0".toList then some "socket:[1]".toList
    else if p = "/proc/7/fd/1".toList then some "pipe:[98765]".toList
    else if p = "/proc/100/fd/1".toList then some "pipe:[98765]".toList
    else if p = "/proc/100/fd/2".toList then some "pipe:[4242]".toList
    else none
  opendir := fun p =>
    if p = "/proc".toList then
      some [⟨".".toList, DType.DT_DIR⟩, ⟨"..".toList, DType.DT_DIR⟩,
        ⟨"7".toList, DType.DT_DIR⟩, ⟨"100".toList, DType.DT_DIR⟩,
        ⟨"self".toList, DType.DT_LNK⟩, ⟨"uptime".toList, DType.DT_REG⟩]
    else if p = "/proc/7/fd".toList then
      some [⟨".".toList, DType.DT_DIR⟩, ⟨"..".toList, DType.DT_DIR⟩,
        ⟨"0".toList, DType.DT_LNK⟩, ⟨"1".toList, DType.DT_LNK⟩]
    else if p = "/proc/100/fd".toList then
      some [⟨".".toList, DType.DT_DIR⟩, ⟨"..".toList, DType.DT_DIR⟩,
        ⟨"1".toList, DType.DT_LNK⟩, ⟨"2".toList, DType.DT_LNK⟩]
    else none

/-- A system as Linux presents it: `/proc` lists the caller, PID 100, its parent, PID 99,
the processes 1 and 7, and, beside them, the links `self` and `thread-self`, the
directory `sys` and the file `uptime`.  The caller and its parent hold the pipe 4242;
`/proc/self/fd` opens and shows the descriptors of the caller.  Process 7 holds a
socket and the pipe 98765, process 1 cannot be inspected. -/
def sys_linux : Sys where
  readlink := fun p =>
    if p = "/proc/7/fd/0".toList then some "socket:[1]".toList
    else if p = "/proc/7/fd/1".toList then some "pipe:[98765]".toList
    else if p = "/proc/99/fd/0".toList then some "/dev/pts/0".toList
    else if p = "/proc/99/fd/3".toList then some "pipe:[4242]".toList
    else if p = "/proc/100/fd/0".toList then some "/dev/pts/0".toList
    else if p = "/proc/100/fd/1".toList then some "pipe:[4242]".toList
    else if p = "/proc/self/fd/0".toList then some "/dev/pts/0".toList
    else if p = "/proc/self/fd/1".toList then some "pipe:[4242]".toList
    else if p = "/proc/self".toList then some "100".toList
    else none
  opendir := fun p =>
    if p = "/proc".toList then
      some [⟨".".toList, DType.DT_DIR⟩, ⟨"..".toList, DType.DT_DIR⟩,
        ⟨"sys".toList, DType.DT_DIR⟩, ⟨"uptime".toList, DType.DT_REG⟩,
        ⟨"self".toList, DType.DT_LNK⟩, ⟨"thread-self".toList, DType.DT_LNK⟩,
        ⟨"1".toList, DType.DT_DIR⟩, ⟨"7".toList, DType.DT_DIR⟩,
        ⟨"99".toList, DType.DT_DIR⟩, ⟨"100".toList, DType.DT_DIR⟩]
    else if p = "/proc/7/fd".toList then
      some [⟨".".toList, DType.DT_DIR⟩, ⟨"..".toList, DType.DT_DIR⟩,
        ⟨"0".toList, DType.DT_LNK⟩, ⟨"1".toList, DType.DT_LNK⟩]
    else if p = "/proc/99/fd".toList then
      some [⟨".".toList, DType.DT_DIR⟩, ⟨"..".toList, DType.DT_DIR⟩,
        ⟨"0".toList, DType.DT_LNK⟩, ⟨"3".toList, DType.DT_LNK⟩]
    else if p = "/proc/100/fd".toList then
      some [⟨".".toList, DType.DT_DIR⟩, ⟨"..".toList, DType.DT_DIR⟩,
        ⟨"0".toList, DType.DT_LNK⟩, ⟨"1".toList, DType.DT_LNK⟩]
    else if p = "/proc/self/fd".toList then
      some [⟨".".toList, DType.DT_DIR⟩, ⟨"..".toList, DType.DT_DIR⟩,
        ⟨"0".toList, DType.DT_LNK⟩, ⟨"1".toList, DType.DT_LNK⟩]
    else none

/-! ## Path helpers: `dir_name`, `base_name`, `str_replace_all` -/

theorem find_last_of?_none (set : List Char) (s : List Char)
    (h : find_last_of? set s = none) : ∀ c ∈ s, c ∉ set := by
  induction s with
  | nil => simp
  | cons a cs ih =>
    simp only [find_last_of?] at h
    cases hcs : find_last_of? set cs with
    | some i => simp [hcs] at h
    | none =>
      simp only [hcs] at h
      by_cases ha : a ∈ set
      · simp [ha] at h
      · intro c hc
        rcases List.mem_cons.mp hc with rfl | hc
        · exact ha
        · exact ih hcs c hc

theorem find_last_of?_some (set : List Char) (s : List Char) (i : Nat)
    (h : find_last_of? set s = some i) :
    i < s.length ∧ (∃ pre c, s.take (i + 1) = pre ++ [c] ∧ c ∈ set) ∧
      ∀ c ∈ s.drop (i + 1), c ∉ set := by
  induction s generalizing i with
  | nil => simp [find_last_of?] at h
  | cons a cs ih =>
    simp only [find_last_of?] at h
    cases hcs : find_last_of? set cs with
    | some j =>
      simp only [hcs, Option.some.injEq] at h
      subst h
      obtain ⟨h1, ⟨pre, c, h2, h3⟩, h4⟩ := ih j hcs
      refine ⟨by simp; omega, ⟨a :: pre, c, ?_, h3⟩, by simpa using h4⟩
      rw [List.take_succ_cons, h2]; rfl
    | none =>
      simp only [hcs] at h
      by_cases ha : a ∈ set
      · simp only [ha, if_true, Option.some.injEq] at h
        subst h
        refine ⟨by simp, ⟨[], a, by simp, ha⟩, ?_⟩
        simpa using find_last_of?_none set cs hcs
      · simp [ha] at h

theorem mem_separators (c : Char) : c ∈ separators ↔ c = '/' ∨ c = '\\' := by
  simp [separators, or_comm]

/-- C10. `dir_name` and `base_name` split a string at its last separator without losing
characters: both return, `dir_name s` followed by `base_name s` is `s`, `base_name s`
holds neither `/` nor `\`, and `dir_name s` is empty exactly when `s` holds no separator
and otherwise ends with a separator. -/
theorem dir_name_base_name_split (s : List Char) (hlen : s.length ≤ SIZE_MAX) :
    ∃ d b, dir_name s = some d ∧ base_name s = some b ∧ d ++ b = s ∧
      (∀ c ∈ b, c ≠ '/' ∧ c ≠ '\\') ∧
      (d = [] ↔ ∀ c ∈ s, c ≠ '/' ∧ c ≠ '\\') ∧
      (d ≠ [] → ∃ pre c, d = pre ++ [c] ∧ (c = '/' ∨ c = '\\')) := by
  have hsep : ∀ c : Char, c ∉ separators → c ≠ '/' ∧ c ≠ '\\' := by
    intro c hc
    rw [mem_separators] at hc
    exact ⟨fun h => hc (Or.inl h), fun h => hc (Or.inr h)⟩
  cases hf : find_last_of? separators s with
  | none =>
    have hnone := find_last_of?_none separators s hf
    have hk : size_add (find_last_of s separators) 1 = 0 := by
      simp [size_add, find_last_of, hf, npos, SIZE_MAX]
    refine ⟨[], s, ?_, ?_, rfl, fun c hc => hsep c (hnone c hc), ?_, fun h => absurd rfl h⟩
    · simp [dir_name, substr, hk]
    · simp only [base_name, substr, hk]
      simp only [npos]
      simp [List.take_of_length_le hlen]
    · simp only [true_iff]
      exact fun c hc => hsep c (hnone c hc)
  | some i =>
    obtain ⟨hi, ⟨pre, c, hpre, hc⟩, hrest⟩ := find_last_of?_some separators s i hf
    have hk : size_add (find_last_of s separators) 1 = i + 1 := by
      simp only [size_add, find_last_of, hf, Option.getD_some]
      apply Nat.mod_eq_of_lt
      omega
    have hdne : s.take (i + 1) ≠ [] := by rw [hpre]; simp
    refine ⟨s.take (i + 1), s.drop (i + 1), ?_, ?_, List.take_append_drop _ _,
      fun c hc => hsep c (hrest c hc), ?_, fun _ => ⟨pre, c, hpre, (mem_separators c).mp hc⟩⟩
    · simp [dir_name, substr, hk]
    · simp only [base_name, substr, hk]
      have : ¬ (i + 1 > s.length) := by omega
      simp only [this, if_false, npos]
      rw [List.take_of_length_le]
      simp only [List.length_drop]; omega
    · constructor
      · intro h; exact absurd h hdne
      · intro h
        exfalso
        have hmem : c ∈ s := by
          have : c ∈ s.take (i + 1) := by rw [hpre]; simp
          exact List.mem_of_mem_take this
        have := h c hmem
        rcases (mem_separators c).mp hc with h1 | h1
        · exact this.1 h1
        · exact this.2 h1

/-- C10 at a path holding both kinds of separator. -/
theorem dir_name_base_name_split_witness :
    ∃ d b, dir_name "/usr/lib\\x".toList = some d ∧ base_name "/usr/lib\\x".toList = some b ∧
      d ++ b = "/usr/lib\\x".toList ∧
      (∀ c ∈ b, c ≠ '/' ∧ c ≠ '\\') ∧
      (d = [] ↔ ∀ c ∈ "/usr/lib\\x".toList, c ≠ '/' ∧ c ≠ '\\') ∧
      (d ≠ [] → ∃ pre c, d = pre ++ [c] ∧ (c = '/' ∨ c = '\\')) :=
  dir_name_base_name_split "/usr/lib\\x".toList (by decide)

theorem replace_scan_skip (from_ to_ : List Char) (k : Nat) (s : List Char) :
    replace_scan from_ to_ k s = replace_scan from_ to_ 0 (s.drop k) := by
  induction s generalizing k with
  | nil => simp [replace_scan]
  | cons c cs ih =>
    cases k with
    | zero => simp
    | succ k => simp only [replace_scan, List.drop_succ_cons]; exact ih k

theorem replace_scan_of_find_first_none (from_ to_ : List Char) (s : List Char)
    (h : find_first from_ s = none) : replace_scan from_ to_ 0 s = s := by
  induction s with
  | nil => simp [replace_scan]
  | cons c cs ih =>
    simp only [find_first] at h
    by_cases hp : from_.isPrefixOf (c :: cs) = true
    · simp [hp] at h
    · simp only [hp, Bool.false_eq_true, if_false, Option.map_eq_none'] at h
      simp only [replace_scan, hp, Bool.false_eq_true, if_false, ih h]

theorem find_first_some (from_ to_ : List Char) (hne : from_ ≠ []) (s : List Char) (k : Nat)
    (h : find_first from_ s = some k) :
    s = s.take k ++ from_ ++ s.drop (k + from_.length) ∧
    replace_scan from_ to_ 0 s =
      s.take k ++ to_ ++ replace_scan from_ to_ 0 (s.drop (k + from_.length)) := by
  induction s generalizing k with
  | nil => simp [find_first, hne] at h
  | cons c cs ih =>
    simp only [find_first] at h
    by_cases hp : from_.isPrefixOf (c :: cs) = true
    · simp only [hp, if_true, Option.some.injEq] at h
      subst h
      have hpre : from_ <+: (c :: cs) := List.isPrefixOf_iff_prefix.mp hp
      obtain ⟨t, ht⟩ := hpre
      have hlen : 1 ≤ from_.length := List.length_pos.mpr hne
      have hdrop : (c :: cs).drop from_.length = t := by
        rw [← ht]; simp
      constructor
      · simp only [List.take_zero, List.nil_append, Nat.zero_add, hdrop, ht]
      · simp only [replace_scan, hp, if_true, List.take_zero, List.nil_append, Nat.zero_add]
        rw [replace_scan_skip]
        congr 2
        have : from_.length = (from_.length - 1) + 1 := by omega
        rw [this, List.drop_succ_cons]
        simp
    · simp only [hp, Bool.false_eq_true, if_false, Option.map_eq_some'] at h
      obtain ⟨j, hj, rfl⟩ := h
      obtain ⟨h1, h2⟩ := ih j hj
      constructor
      · have : j + 1 + from_.length = (j + from_.length) + 1 := by omega
        rw [this, List.take_succ_cons, List.drop_succ_cons]
        simp only [List.cons_append]
        rw [← h1]
      · simp only [replace_scan, hp, Bool.false_eq_true, if_false]
        have : j + 1 + from_.length = (j + from_.length) + 1 := by omega
        rw [this, List.take_succ_cons, List.drop_succ_cons, h2]
        simp

theorem find_first_lt (from_ : List Char) (hne : from_ ≠ []) (s : List Char) (k : Nat)
    (h : find_first from_ s = some k) : k + from_.length ≤ s.length := by
  have h1 := (find_first_some from_ [] hne s k h).1
  have h2 := congrArg List.length h1
  have hlen : 1 ≤ from_.length := List.length_pos.mpr hne
  simp only [List.length_append, List.length_take, List.length_drop, Nat.min_def] at h2
  split at h2 <;> omega

theorem str_replace_all_loop_eq (from_ to_ : List Char) (hne : from_ ≠ []) (n : Nat) :
    ∀ (rest done : List Char) (fuel : Nat), rest.length ≤ n → n < fuel →
      str_replace_all_loop from_ to_ fuel (done ++ rest) done.length =
        some (done ++ replace_scan from_ to_ 0 rest) := by
  induction n with
  | zero =>
    intro rest done fuel hr hf
    have hrest : rest = [] := List.length_eq_zero.mp (Nat.le_zero.mp hr)
    subst hrest
    obtain ⟨f, rfl⟩ : ∃ f, fuel = f + 1 := ⟨fuel - 1, by omega⟩
    simp [str_replace_all_loop, find, find_first, hne, replace_scan]
  | succ n ih =>
    intro rest done fuel hr hf
    obtain ⟨f, rfl⟩ : ∃ f, fuel = f + 1 := ⟨fuel - 1, by omega⟩
    have hfind : find (done ++ rest) from_ done.length =
        (find_first from_ rest).map (· + done.length) := by
      simp [find]
    simp only [str_replace_all_loop, hfind]
    cases hff : find_first from_ rest with
    | none =>
      simp [replace_scan_of_find_first_none from_ to_ rest hff]
    | some k =>
      obtain ⟨h1, h2⟩ := find_first_some from_ to_ hne rest k hff
      have hk := find_first_lt from_ hne rest k hff
      have hlen : 1 ≤ from_.length := List.length_pos.mpr hne
      simp only [Option.map_some']
      have hrep : replace (done ++ rest) (k + done.length) from_.length to_ =
          (done ++ rest.take k ++ to_) ++ rest.drop (k + from_.length) := by
        simp only [replace]
        have e1 : (done ++ rest).take (k + done.length) = done ++ rest.take k := by
          rw [Nat.add_comm, List.take_append]
        have e2 : (done ++ rest).drop (k + done.length + from_.length) =
            rest.drop (k + from_.length) := by
          have : k + done.length + from_.length = done.length + (k + from_.length) := by omega
          rw [this, List.drop_append]
        rw [e1, e2]
      have hpos : k + done.length + to_.length = (done ++ rest.take k ++ to_).length := by
        simp only [List.length_append, List.length_take]
        have : min k rest.length = k := by omega
        omega
      rw [hrep, hpos, ih _ _ f (by simp only [List.length_drop]; omega) (by omega), h2]
      simp

/-- With an empty pattern the loop of `str_replace_all` never ends: every amount of fuel
runs out. -/
theorem str_replace_all_loop_empty_pattern (to_ : List Char) (fuel : Nat) :
    ∀ (str : List Char) (start_pos : Nat), start_pos ≤ str.length →
      str_replace_all_loop [] to_ fuel str start_pos = none := by
  induction fuel with
  | zero => intro str start_pos _; rfl
  | succ f ih =>
    intro str start_pos hle
    have hfind : find str [] start_pos = some start_pos := by
      have h0 : ∀ l : List Char, find_first [] l = some 0 := by
        intro l
        cases l <;> simp [find_first]
      simp [find, Nat.not_lt.mpr hle, h0]
    simp only [str_replace_all_loop, hfind]
    apply ih
    simp only [replace, List.length_append, List.length_take, List.length_drop,
      List.length_nil]
    omega

theorem find_first_none_of_absent (from_ : List Char) (hne : from_ ≠ []) (s : List Char)
    (h : ¬ from_ <:+: s) : find_first from_ s = none := by
  cases hff : find_first from_ s with
  | none => rfl
  | some k =>
    exfalso
    apply h
    have h1 := (find_first_some from_ [] hne s k hff).1
    exact ⟨s.take k, s.drop (k + from_.length), h1.symm⟩

theorem find_first_at (from_ : List Char) (hne : from_ ≠ []) (a b : List Char)
    (h : ∀ j, j < a.length → ¬ from_ <+: (a ++ from_ ++ b).drop j) :
    find_first from_ (a ++ from_ ++ b) = some a.length := by
  induction a with
  | nil =>
    obtain ⟨c, cs, hc⟩ := List.exists_cons_of_ne_nil hne
    have hp : from_.isPrefixOf (from_ ++ b) = true :=
      List.isPrefixOf_iff_prefix.mpr (List.prefix_append _ _)
    simp only [List.nil_append, List.length_nil]
    generalize hw : from_ ++ b = w at hp
    cases w with
    | nil => simp [hc] at hw
    | cons x xs => simp [find_first, hp]
  | cons x a ih =>
    have h0 := h 0 (by simp)
    have hp : ¬ from_.isPrefixOf (x :: (a ++ from_ ++ b)) = true := by
      intro hh
      exact h0 (by simpa using List.isPrefixOf_iff_prefix.mp hh)
    have ih2 := ih (fun j hj => by
      have := h (j + 1) (by simp; omega)
      simpa using this)
    have e : (x :: a) ++ from_ ++ b = x :: (a ++ from_ ++ b) := rfl
    rw [e]
    show (if from_.isPrefixOf (x :: (a ++ from_ ++ b)) = true then some 0
      else (find_first from_ (a ++ from_ ++ b)).map (· + 1)) = some (a.length + 1)
    rw [if_neg hp, ih2]
    rfl

theorem replace_scan_self (from_ : List Char) (hne : from_ ≠ []) (n : Nat) :
    ∀ s : List Char, s.length ≤ n → replace_scan from_ from_ 0 s = s := by
  induction n with
  | zero =>
    intro s hs
    have : s = [] := List.length_eq_zero.mp (Nat.le_zero.mp hs)
    subst this
    rfl
  | succ n ih =>
    intro s hs
    cases hff : find_first from_ s with
    | none => exact replace_scan_of_find_first_none from_ from_ s hff
    | some k =>
      obtain ⟨h1, h2⟩ := find_first_some from_ from_ hne s k hff
      have hk := find_first_lt from_ hne s k hff
      have hlen : 1 ≤ from_.length := List.length_pos.mpr hne
      rw [h2, ih _ (by simp only [List.length_drop]; omega)]
      exact h1.symm

/-- C9. For a non-empty `from_` the loop of `str_replace_all` ends (any fuel above the
length of `str` is enough) and yields `str` with the occurrences of `from_`, taken from
left to right without overlap, replaced by `to_`, inserted text never being scanned
again: the result is `str` when `from_` does not occur or when `to_` is `from_`, a first
occurrence is replaced and the scan goes on behind it in the original text, and
replacing `aa` by `a` in `aaa` gives `aa`. -/
theorem str_replace_all_spec (str from_ to_ : List Char) (hne : from_ ≠ []) :
    (∀ fuel, str.length < fuel →
      str_replace_all_loop from_ to_ fuel str 0 = some (replace_scan from_ to_ 0 str)) ∧
    str_replace_all str from_ to_ = some (replace_scan from_ to_ 0 str) ∧
    (¬ from_ <:+: str → str_replace_all str from_ to_ = some str) ∧
    (to_ = from_ → str_replace_all str from_ to_ = some str) ∧
    (∀ a b, str = a ++ from_ ++ b → (∀ j, j < a.length → ¬ from_ <+: str.drop j) →
      str_replace_all str from_ to_ = (str_replace_all b from_ to_).map (a ++ to_ ++ ·)) ∧
    str_replace_all "aaa".toList "aa".toList "a".toList = some "aa".toList := by
  have hloop : ∀ (s : List Char) (fuel : Nat), s.length < fuel →
      str_replace_all_loop from_ to_ fuel s 0 = some (replace_scan from_ to_ 0 s) := by
    intro s fuel hf
    have := str_replace_all_loop_eq from_ to_ hne s.length s [] fuel (Nat.le_refl _) hf
    simpa using this
  have hall : ∀ s : List Char,
      str_replace_all s from_ to_ = some (replace_scan from_ to_ 0 s) :=
    fun s => hloop s _ (Nat.lt_succ_self _)
  refine ⟨hloop str, hall str, ?_, ?_, ?_, by decide⟩
  · intro hni
    rw [hall, replace_scan_of_find_first_none from_ to_ str
      (find_first_none_of_absent from_ hne str hni)]
  · intro hto
    subst hto
    rw [hall, replace_scan_self to_ hne str.length str (Nat.le_refl _)]
  · intro a b hab hfirst
    subst hab
    have hff := find_first_at from_ hne a b hfirst
    obtain ⟨-, h2⟩ := find_first_some from_ to_ hne _ _ hff
    rw [hall, hall, h2]
    simp

/-- C9 at the text `banana`, in which `na` occurs twice. -/
theorem str_replace_all_spec_witness :
    "na".toList ≠ [] ∧
    str_replace_all "banana".toList "na".toList "NA!".toList = some "baNA!NA!".toList :=
  ⟨by decide,
   ((str_replace_all_spec "banana".toList "na".toList "NA!".toList (by decide)).2.1).trans
     (by decide)⟩

/-! ## Pipe helpers: `get_pipe_id`, `check_pipe_reader` -/

theorem isdigit_toNat (c : Char) (h : isdigit c = true) : 48 ≤ c.toNat ∧ c.toNat ≤ 57 := by
  simpa [isdigit] using h

theorem isspace_of_isdigit (c : Char) (h : isdigit c = true) : isspace c = false := by
  have hc := isdigit_toNat c h
  by_contra hs
  simp only [isspace, Bool.not_eq_false, Bool.or_eq_true, decide_eq_true_eq] at hs
  rcases hs with ((((hs | hs) | hs) | hs) | hs) | hs <;>
    · subst hs
      revert hc
      decide

theorem strtoul_sign_of_isdigit (c : Char) (cs : List Char) (h : isdigit c = true) :
    strtoul_sign (c :: cs) = (false, c :: cs) := by
  have hc := isdigit_toNat c h
  have h1 : c ≠ '-' := by
    rintro rfl
    revert hc
    decide
  have h2 : c ≠ '+' := by
    rintro rfl
    revert hc
    decide
  unfold strtoul_sign
  split
  · rename_i heq
    exact absurd (List.cons.inj heq).1 h1
  · rename_i heq
    exact absurd (List.cons.inj heq).1 h2
  · rfl

theorem takeWhile_isdigit_append (D r : List Char) (hD : ∀ c ∈ D, isdigit c = true)
    (hr : ∀ c, r.head? = some c → isdigit c = false) :
    (D ++ r).takeWhile isdigit = D ∧ (D ++ r).dropWhile isdigit = r := by
  induction D with
  | nil =>
    cases r with
    | nil => simp
    | cons x xs =>
      have := hr x rfl
      simp [List.takeWhile, List.dropWhile, this]
  | cons d D ih =>
    have hd := hD d (by simp)
    have := ih (fun c hc => hD c (by simp [hc]))
    simp [List.takeWhile, List.dropWhile, hd, this]

/-- On a non-empty run of digits followed by something that is not a digit, `strtoul`
converts the whole run, saturating at `ULONG_MAX`, and stops right behind it. -/
theorem strtoul_digits (D r : List Char) (hne : D ≠ []) (hD : ∀ c ∈ D, isdigit c = true)
    (hr : ∀ c, r.head? = some c → isdigit c = false) :
    strtoul (D ++ r) =
      (if decimal_value D > ULONG_MAX then ULONG_MAX else decimal_value D, r) := by
  obtain ⟨d, D', rfl⟩ := List.exists_cons_of_ne_nil hne
  have hd := hD d (by simp)
  have hsp : ((d :: D') ++ r).dropWhile isspace = (d :: D') ++ r := by
    simp [List.dropWhile, isspace_of_isdigit d hd]
  have hsg : strtoul_sign ((d :: D') ++ r) = (false, (d :: D') ++ r) :=
    strtoul_sign_of_isdigit d (D' ++ r) hd
  obtain ⟨ht, hdr⟩ := takeWhile_isdigit_append (d :: D') r hD hr
  unfold strtoul
  simp only [hsp, hsg, ht, hdr]
  simp

theorem digitChar_spec (k : Nat) (hk : k < 10) :
    isdigit (Nat.digitChar k) = true ∧ digit_value (Nat.digitChar k) = k := by
  interval_cases k <;> decide

theorem decimal_value_append (a b : List Char) :
    decimal_value (a ++ b) =
      b.foldl (fun acc c => 10 * acc + digit_value c) (decimal_value a) := by
  simp [decimal_value, List.foldl_append]

theorem toDigitsCore_append (fuel : Nat) : ∀ (n : Nat) (ds : List Char),
    Nat.toDigitsCore 10 fuel n ds = Nat.toDigitsCore 10 fuel n [] ++ ds := by
  induction fuel with
  | zero => intro n ds; simp [Nat.toDigitsCore]
  | succ f ih =>
    intro n ds
    simp only [Nat.toDigitsCore]
    split
    · simp
    · rw [ih (n / 10) (Nat.digitChar (n % 10) :: ds), ih (n / 10) [Nat.digitChar (n % 10)]]
      simp

theorem toDigitsCore_spec (fuel : Nat) : ∀ n : Nat, n < fuel →
    decimal_value (Nat.toDigitsCore 10 fuel n []) = n ∧
    Nat.toDigitsCore 10 fuel n [] ≠ [] ∧
    ∀ c ∈ Nat.toDigitsCore 10 fuel n [], isdigit c = true := by
  induction fuel with
  | zero => intro n hn; omega
  | succ f ih =>
    intro n hn
    have hd := digitChar_spec (n % 10) (Nat.mod_lt _ (by decide))
    simp only [Nat.toDigitsCore]
    split
    · rename_i h0
      refine ⟨?_, by simp, ?_⟩
      · simp only [decimal_value, List.foldl_cons, List.foldl_nil, hd.2]
        omega
      · intro c hc
        simp only [List.mem_singleton] at hc
        subst hc
        exact hd.1
    · rename_i h0
      have hlt : n / 10 < f := by omega
      obtain ⟨h1, h2, h3⟩ := ih (n / 10) hlt
      rw [toDigitsCore_append]
      refine ⟨?_, by simp, ?_⟩
      · rw [decimal_value_append, h1]
        simp only [List.foldl_cons, List.foldl_nil, hd.2]
        omega
      · intro c hc
        rcases List.mem_append.mp hc with hc | hc
        · exact h3 c hc
        · simp only [List.mem_singleton] at hc
          subst hc
          exact hd.1

theorem toDigits_spec (n : Nat) :
    decimal_value (Nat.toDigits 10 n) = n ∧ Nat.toDigits 10 n ≠ [] ∧
    ∀ c ∈ Nat.toDigits 10 n, isdigit c = true :=
  toDigitsCore_spec (n + 1) n (Nat.lt_succ_self n)

theorem toDigits_length (n : Nat) (h : n ≤ ULONG_MAX) :
    (Nat.toDigits 10 n).length ≤ 20 :=
  Nat.toDigitsCore_length 10 (by decide) (n + 1) n 20 (by simp only [ULONG_MAX] at h; omega) (by decide)

theorem strncmp_eq_zero_iff (n : Nat) : ∀ a b : List Char,
    strncmp a b n = 0 ↔ a.take n = b.take n := by
  induction n with
  | zero => intro a b; simp [strncmp]
  | succ n ih =>
    intro a b
    cases a with
    | nil => cases b <;> simp [strncmp]
    | cons x a =>
      cases b with
      | nil => simp [strncmp]
      | cons y b =>
        by_cases hxy : x = y
        · simp [strncmp, hxy, ih]
        · simp only [strncmp, hxy, if_false, List.take_succ_cons, List.cons.injEq, false_and,
            iff_false]
          split <;> decide

theorem c_str_eq_self (l : List Char) (h : ∀ c ∈ l, c ≠ '\x00') : c_str l = l := by
  unfold c_str
  rw [List.takeWhile_eq_self_iff]
  intro c hc
  simpa using h c hc

theorem isdigit_ne_nul (c : Char) (h : isdigit c = true) : c ≠ '\x00' := by
  have hc := isdigit_toNat c h
  rintro rfl
  revert hc
  decide

theorem get_pipe_id_of_digits (sys : Sys) (path D : List Char)
    (hne : D ≠ []) (hD : ∀ c ∈ D, isdigit c = true)
    (hlen : (pipe_marker ++ D ++ [']']).length ≤ PATH_MAX)
    (hlink : sys.readlink path = some (pipe_marker ++ D ++ [']'])) :
    get_pipe_id sys path =
      if decimal_value D > ULONG_MAX then ULONG_MAX else decimal_value D := by
  have htake : (pipe_marker ++ D ++ [']']).take PATH_MAX = pipe_marker ++ D ++ [']'] :=
    List.take_of_length_le hlen
  have hstr : c_str (pipe_marker ++ D ++ [']']) = pipe_marker ++ D ++ [']'] := by
    apply c_str_eq_self
    intro c hc
    simp only [List.mem_append, List.mem_singleton] at hc
    rcases hc with (hc | hc) | hc
    · revert c; decide
    · exact isdigit_ne_nul c (hD c hc)
    · subst hc; decide
  have hcmp : strncmp (pipe_marker ++ D ++ [']']) pipe_marker 6 = 0 := by
    rw [strncmp_eq_zero_iff]
    simp [pipe_marker]
  have hdrop : (pipe_marker ++ D ++ [']']).drop 6 = D ++ [']'] := by
    simp [pipe_marker]
  unfold get_pipe_id
  simp only [hlink, htake, hstr, hcmp, hdrop, ne_eq, not_true_eq_false, if_false]
  rw [strtoul_digits D [']'] hne hD (by intro c hc; simp at hc; subst hc; decide)]

theorem get_pipe_id_of_not_marker (sys : Sys) (path target : List Char)
    (hlink : sys.readlink path = some target) (hpre : ¬ pipe_marker <+: target) :
    get_pipe_id sys path = 0 := by
  unfold get_pipe_id
  simp only [hlink]
  have hcmp : strncmp (c_str (target.take PATH_MAX)) pipe_marker 6 ≠ 0 := by
    intro h0
    rw [strncmp_eq_zero_iff] at h0
    apply hpre
    have h1 : pipe_marker <+: c_str (target.take PATH_MAX) := by
      have : pipe_marker.take 6 = pipe_marker := by decide
      rw [this] at h0
      rw [← h0]
      exact List.take_prefix _ _
    have h2 : c_str (target.take PATH_MAX) <+: target.take PATH_MAX :=
      List.takeWhile_prefix _
    exact (h1.trans h2).trans (List.take_prefix _ _)
  simp [hcmp]

theorem scan_fd_dir_returns (sys : Sys) (pipe_id : Nat) (buf : List Char) (fds : List Dirent)
    (h : ∀ d ∈ fds, d.d_type = DType.DT_LNK → get_pipe_id sys (buf ++ d.d_name) ≠ pipe_id) :
    scan_fd_dir sys pipe_id buf fds = Outcome.returns := by
  induction fds with
  | nil => rfl
  | cons d rest ih =>
    have hrest := ih (fun x hx => h x (List.mem_cons_of_mem _ hx))
    unfold scan_fd_dir
    by_cases ht : d.d_type ≠ DType.DT_LNK
    · rw [if_pos ht]; exact hrest
    · have hd : ¬ pipe_id = get_pipe_id sys (buf ++ d.d_name) :=
        fun hh => h d (List.mem_cons_self _ _) (not_not.mp ht) hh.symm
      rw [if_neg ht, if_neg hd]; exact hrest

theorem scan_fd_dir_cases (sys : Sys) (pipe_id : Nat) (buf : List Char) (fds : List Dirent) :
    scan_fd_dir sys pipe_id buf fds = Outcome.returns ∨
      scan_fd_dir sys pipe_id buf fds = Outcome.sleep_then_exit 3 1 := by
  induction fds with
  | nil => exact Or.inl rfl
  | cons d rest ih =>
    unfold scan_fd_dir
    by_cases ht : d.d_type ≠ DType.DT_LNK
    · rw [if_pos ht]; exact ih
    · rw [if_neg ht]
      by_cases hd : pipe_id = get_pipe_id sys (buf ++ d.d_name)
      · rw [if_pos hd]; exact Or.inr rfl
      · rw [if_neg hd]; exact ih

theorem scan_fd_dir_exits (sys : Sys) (pipe_id : Nat) (buf : List Char) (fds : List Dirent)
    (d : Dirent) (hd : d ∈ fds) (hl : d.d_type = DType.DT_LNK)
    (hid : get_pipe_id sys (buf ++ d.d_name) = pipe_id) :
    scan_fd_dir sys pipe_id buf fds = Outcome.sleep_then_exit 3 1 := by
  induction fds with
  | nil => simp at hd
  | cons x rest ih =>
    unfold scan_fd_dir
    by_cases ht : x.d_type ≠ DType.DT_LNK
    · rw [if_pos ht]
      rcases List.mem_cons.mp hd with rfl | hmem
      · exact absurd hl ht
      · exact ih hmem
    · rw [if_neg ht]
      by_cases hx : pipe_id = get_pipe_id sys (buf ++ x.d_name)
      · rw [if_pos hx]
      · rw [if_neg hx]
        rcases List.mem_cons.mp hd with rfl | hmem
        · exact absurd hid.symm hx
        · exact ih hmem

theorem scan_proc_dir_step (sys : Sys) (mypid ppid pipe_id : Nat) (e : Dirent)
    (rest : List Dirent) :
    scan_proc_dir sys mypid ppid pipe_id (e :: rest) =
        scan_proc_dir sys mypid ppid pipe_id rest ∨
      (e.d_type = DType.DT_DIR ∧ (strtoul e.d_name).1 ≠ 0 ∧ (strtoul e.d_name).2 = [] ∧
        (strtoul e.d_name).1 ≠ mypid ∧ (strtoul e.d_name).1 ≠ ppid ∧
        ∃ fds, sys.opendir ("/proc/".toList ++ e.d_name ++ "/fd".toList) = some fds ∧
          scan_fd_dir sys pipe_id ("/proc/".toList ++ e.d_name ++ "/fd".toList ++ ['/']) fds =
            Outcome.sleep_then_exit 3 1 ∧
          scan_proc_dir sys mypid ppid pipe_id (e :: rest) = Outcome.sleep_then_exit 3 1) := by
  rw [scan_proc_dir]
  by_cases ht : e.d_type ≠ DType.DT_DIR
  · rw [if_pos ht]; exact Or.inl rfl
  · rw [if_neg ht]
    simp only
    by_cases hz : (strtoul e.d_name).1 = 0 ∨ (strtoul e.d_name).2 ≠ []
    · rw [if_pos hz]; exact Or.inl rfl
    · rw [if_neg hz]
      by_cases hp : (strtoul e.d_name).1 = mypid ∨ (strtoul e.d_name).1 = ppid
      · rw [if_pos hp]; exact Or.inl rfl
      · rw [if_neg hp]
        cases hop : sys.opendir ("/proc/".toList ++ e.d_name ++ "/fd".toList) with
        | none => exact Or.inl rfl
        | some fds =>
          simp only
          rcases scan_fd_dir_cases sys pipe_id
            ("/proc/".toList ++ e.d_name ++ "/fd".toList ++ ['/']) fds with hr | hx
          · rw [hr]; exact Or.inl rfl
          · rw [hx]
            push_neg at hz hp
            exact Or.inr ⟨not_not.mp ht, hz.1, hz.2, hp.1, hp.2, fds, rfl, hx, rfl⟩

theorem scan_proc_dir_cases (sys : Sys) (mypid ppid pipe_id : Nat) (entries : List Dirent) :
    scan_proc_dir sys mypid ppid pipe_id entries = Outcome.returns ∨
      scan_proc_dir sys mypid ppid pipe_id entries = Outcome.sleep_then_exit 3 1 := by
  induction entries with
  | nil => exact Or.inl rfl
  | cons e rest ih =>
    rcases scan_proc_dir_step sys mypid ppid pipe_id e rest with h | h
    · rw [h]; exact ih
    · exact Or.inr h.2.2.2.2.2.choose_spec.2.2

/-- C1, as the code has it.  When the link at `path` reads as the marker, a non-empty
run of digits `D` and `]`, the whole within `PATH_MAX` characters, `get_pipe_id` yields
the number `D` denotes if that number is at most `ULONG_MAX`, and `ULONG_MAX` if it is
larger; when `readlink` fails, and when the target does not begin with the marker, it
yields 0. -/
theorem get_pipe_id_spec (sys : Sys) (path : List Char) :
    (∀ D : List Char, D ≠ [] → (∀ c ∈ D, isdigit c = true) →
      (pipe_marker ++ D ++ [']']).length ≤ PATH_MAX →
      sys.readlink path = some (pipe_marker ++ D ++ [']']) →
      (decimal_value D ≤ ULONG_MAX → get_pipe_id sys path = decimal_value D) ∧
      (ULONG_MAX < decimal_value D → get_pipe_id sys path = ULONG_MAX)) ∧
    (sys.readlink path = none → get_pipe_id sys path = 0) ∧
    (∀ target, sys.readlink path = some target → ¬ pipe_marker <+: target →
      get_pipe_id sys path = 0) := by
  refine ⟨?_, ?_, ?_⟩
  · intro D hne hD hlen hlink
    have h := get_pipe_id_of_digits sys path D hne hD hlen hlink
    constructor
    · intro hle
      rw [h, if_neg (Nat.not_lt.mpr hle)]
    · intro hgt
      rw [h, if_pos hgt]
  · intro hnone
    simp [get_pipe_id, hnone]
  · intro target hlink hpre
    exact get_pipe_id_of_not_marker sys path target hlink hpre

/-- C1 at a pipe descriptor, at a socket descriptor and at a path that is no link. -/
theorem get_pipe_id_spec_witness :
    get_pipe_id sys_example "/proc/7/fd/1".toList = 98765 ∧
    get_pipe_id sys_example "/proc/7/fd/0".toList = 0 ∧
    get_pipe_id sys_example "/proc/7/fd/9".toList = 0 :=
  ⟨((get_pipe_id_spec sys_example "/proc/7/fd/1".toList).1 "98765".toList (by decide)
      (by decide) (by decide) (by decide)).1 (by decide),
   (get_pipe_id_spec sys_example "/proc/7/fd/0".toList).2.2 "socket:[1]".toList (by decide)
      (by decide),
   (get_pipe_id_spec sys_example "/proc/7/fd/9".toList).2.1 (by decide)⟩

/-- C1, as stated, fails.  The link `/proc/7/fd/1` of `sys_wide_digits` reads as the marker,
the digits of `2^64` and `]`, yet `get_pipe_id` does not yield `2^64`, the number those
digits denote: it yields `ULONG_MAX`. -/
theorem get_pipe_id_wide_digits :
    sys_wide_digits.readlink "/proc/7/fd/1".toList =
      some (pipe_marker ++ "18446744073709551616".toList ++ [']']) ∧
    (∀ c ∈ "18446744073709551616".toList, isdigit c = true) ∧
    decimal_value "18446744073709551616".toList = 18446744073709551616 ∧
    get_pipe_id sys_wide_digits "/proc/7/fd/1".toList = 18446744073709551615 ∧
    get_pipe_id sys_wide_digits "/proc/7/fd/1".toList ≠
      decimal_value "18446744073709551616".toList := by
  decide

/-- C2 fails on the code.  In `sys_example` the caller is PID 100, its parent PID 99, and
descriptor 0 of process 7 is a socket, for which `get_pipe_id` yields 0; called with
the identity 0, `check_pipe_reader` takes that descriptor for a match, sleeps 3 seconds
and exits with status 1 instead of returning. -/
theorem check_pipe_reader_zero_matches :
    sys_example.readlink "/proc/7/fd/0".toList = some "socket:[1]".toList ∧
    get_pipe_id sys_example "/proc/7/fd/0".toList = 0 ∧
    check_pipe_reader sys_example 100 99 0 = Outcome.sleep_then_exit 3 1 ∧
    check_pipe_reader sys_example 100 99 0 ≠ Outcome.returns := by
  decide

/-- C3.  Call a process other than the caller and its parent an entry of `/proc` that is
a directory and whose name reads, in full, as a positive number other than `mypid` and
`ppid`, and call a descriptor of it an entry of its `fd` directory that is a symbolic
link.  If no descriptor of such a process resolves to `pipe_id`, then
`check_pipe_reader` returns, without sleeping and without exiting.  Nothing is asked
of any other entry: whatever the descriptors under the caller's own PID, under its
parent's PID, and under entries that are no processes (such as `self`) resolve to,
they are never taken for a match. -/
theorem check_pipe_reader_ignores_self_and_parent (sys : Sys) (mypid ppid pipe_id : Nat)
    (h : ∀ entries, sys.opendir "/proc".toList = some entries →
      ∀ e ∈ entries, e.d_type = DType.DT_DIR →
      (strtoul e.d_name).1 ≠ 0 → (strtoul e.d_name).2 = [] →
      (strtoul e.d_name).1 ≠ mypid → (strtoul e.d_name).1 ≠ ppid →
      ∀ fds, sys.opendir ("/proc/".toList ++ e.d_name ++ "/fd".toList) = some fds →
      ∀ d ∈ fds, d.d_type = DType.DT_LNK →
        get_pipe_id sys ("/proc/".toList ++ e.d_name ++ "/fd".toList ++ ['/'] ++ d.d_name) ≠
          pipe_id) :
    check_pipe_reader sys mypid ppid pipe_id = Outcome.returns := by
  unfold check_pipe_reader
  cases hop : sys.opendir "/proc".toList with
  | none => rfl
  | some entries =>
    simp only
    have hall := h entries hop
    clear h hop
    induction entries with
    | nil => rfl
    | cons e rest ih =>
      have ihr := ih (fun x hx => hall x (List.mem_cons_of_mem _ hx))
      rcases scan_proc_dir_step sys mypid ppid pipe_id e rest with hs | hs
      · rw [hs]; exact ihr
      · exfalso
        obtain ⟨hdir, hpos, hend, hmy, hpp, fds, hfd, hex, -⟩ := hs
        have hret := scan_fd_dir_returns sys pipe_id
          ("/proc/".toList ++ e.d_name ++ "/fd".toList ++ ['/']) fds
          (hall e (List.mem_cons_self _ _) hdir hpos hend hmy hpp fds hfd)
        rw [hret] at hex
        exact Outcome.noConfusion hex

theorem sys_linux_others_quiet :
    ∀ entries, sys_linux.opendir "/proc".toList = some entries →
      ∀ e ∈ entries, e.d_type = DType.DT_DIR →
      (strtoul e.d_name).1 ≠ 0 → (strtoul e.d_name).2 = [] →
      (strtoul e.d_name).1 ≠ 100 → (strtoul e.d_name).1 ≠ 99 →
      ∀ fds, sys_linux.opendir ("/proc/".toList ++ e.d_name ++ "/fd".toList) = some fds →
      ∀ d ∈ fds, d.d_type = DType.DT_LNK →
        get_pipe_id sys_linux
          ("/proc/".toList ++ e.d_name ++ "/fd".toList ++ ['/'] ++ d.d_name) ≠ 4242 := by
  intro entries hop
  have hE : sys_linux.opendir "/proc".toList =
      some [⟨".".toList, DType.DT_DIR⟩, ⟨"..".toList, DType.DT_DIR⟩,
        ⟨"sys".toList, DType.DT_DIR⟩, ⟨"uptime".toList, DType.DT_REG⟩,
        ⟨"self".toList, DType.DT_LNK⟩, ⟨"thread-self".toList, DType.DT_LNK⟩,
        ⟨"1".toList, DType.DT_DIR⟩, ⟨"7".toList, DType.DT_DIR⟩,
        ⟨"99".toList, DType.DT_DIR⟩, ⟨"100".toList, DType.DT_DIR⟩] := by decide
  have hEq := hE.symm.trans hop
  cases hEq
  intro e he
  simp only [List.mem_cons, List.mem_singleton, List.not_mem_nil, or_false] at he
  rcases he with rfl | rfl | rfl | rfl | rfl | rfl | rfl | rfl | rfl | rfl
  · intro _ hpos
    exact absurd (by decide) hpos
  · intro _ hpos
    exact absurd (by decide) hpos
  · intro _ hpos
    exact absurd (by decide) hpos
  · intro hdir
    exact absurd hdir (by decide)
  · intro hdir
    exact absurd hdir (by decide)
  · intro hdir
    exact absurd hdir (by decide)
  · intro _ _ _ _ _ fds hfd
    have h0 : sys_linux.opendir ("/proc/".toList ++ "1".toList ++ "/fd".toList) = none := by
      decide
    cases h0.symm.trans hfd
  · intro _ _ _ _ _ fds hfd
    have h0 : sys_linux.opendir ("/proc/".toList ++ "7".toList ++ "/fd".toList) =
        some [⟨".".toList, DType.DT_DIR⟩, ⟨"..".toList, DType.DT_DIR⟩,
          ⟨"0".toList, DType.DT_LNK⟩, ⟨"1".toList, DType.DT_LNK⟩] := by
      decide
    cases h0.symm.trans hfd
    intro d hd
    simp only [List.mem_cons, List.mem_singleton, List.not_mem_nil, or_false] at hd
    rcases hd with rfl | rfl | rfl | rfl <;> decide
  · intro _ _ _ _ hpp
    exact absurd (by decide) hpp
  · intro _ _ _ hmy
    exact absurd (by decide) hmy

/-- C3 at a pipe that the caller and its parent hold, in a system where `/proc/self/fd`
shows the caller's descriptors as well. -/
theorem check_pipe_reader_ignores_self_and_parent_witness :
    get_pipe_id sys_linux "/proc/100/fd/1".toList = 4242 ∧
    get_pipe_id sys_linux "/proc/99/fd/3".toList = 4242 ∧
    get_pipe_id sys_linux "/proc/self/fd/1".toList = 4242 ∧
    check_pipe_reader sys_linux 100 99 4242 = Outcome.returns :=
  ⟨by decide, by decide, by decide,
   check_pipe_reader_ignores_self_and_parent sys_linux 100 99 4242
     sys_linux_others_quiet⟩

theorem scan_proc_dir_hit (sys : Sys) (mypid ppid pipe_id : Nat) (e : Dirent)
    (rest fds : List Dirent) (d : Dirent)
    (hmy : mypid ≤ INT_MAX) (hpp : ppid ≤ INT_MAX)
    (hdir : e.d_type = DType.DT_DIR)
    (hname : e.d_name ≠ []) (hnum : ∀ c ∈ e.d_name, isdigit c = true)
    (hpos : decimal_value e.d_name ≠ 0)
    (hself : decimal_value e.d_name ≠ mypid) (hpar : decimal_value e.d_name ≠ ppid)
    (hfd : sys.opendir ("/proc/".toList ++ e.d_name ++ "/fd".toList) = some fds)
    (hd : d ∈ fds) (hlnk : d.d_type = DType.DT_LNK)
    (hid : get_pipe_id sys
      ("/proc/".toList ++ e.d_name ++ "/fd".toList ++ ['/'] ++ d.d_name) = pipe_id) :
    scan_proc_dir sys mypid ppid pipe_id (e :: rest) = Outcome.sleep_then_exit 3 1 := by
  have hst := strtoul_digits e.d_name [] hname hnum (by simp)
  rw [List.append_nil] at hst
  have hpid1 : (strtoul e.d_name).1 ≠ 0 := by
    rw [hst]
    simp only
    split
    · decide
    · exact hpos
  have hend : (strtoul e.d_name).2 = [] := by rw [hst]
  have hpid2 : (strtoul e.d_name).1 ≠ mypid := by
    rw [hst]
    simp only
    split
    · simp only [ULONG_MAX, INT_MAX] at *; omega
    · exact hself
  have hpid3 : (strtoul e.d_name).1 ≠ ppid := by
    rw [hst]
    simp only
    split
    · simp only [ULONG_MAX, INT_MAX] at *; omega
    · exact hpar
  have hscan := scan_fd_dir_exits sys pipe_id
    ("/proc/".toList ++ e.d_name ++ "/fd".toList ++ ['/']) fds d hd hlnk hid
  rw [scan_proc_dir]
  rw [if_neg (not_not.mpr hdir)]
  simp only
  rw [if_neg (by rw [hend]; simp [hpid1]), if_neg (by simp [hpid2, hpid3]), hfd]
  simp only [hscan]

theorem scan_detects_digit_target (sys : Sys) (mypid ppid pipe_id : Nat)
    (entries fds : List Dirent) (e d : Dirent) (D : List Char)
    (hmy : mypid ≤ INT_MAX) (hpp : ppid ≤ INT_MAX) (hid : pipe_id ≤ ULONG_MAX)
    (hproc : sys.opendir "/proc".toList = some entries)
    (he : e ∈ entries) (hdir : e.d_type = DType.DT_DIR)
    (hname : e.d_name ≠ []) (hnum : ∀ c ∈ e.d_name, isdigit c = true)
    (hpos : decimal_value e.d_name ≠ 0)
    (hself : decimal_value e.d_name ≠ mypid) (hpar : decimal_value e.d_name ≠ ppid)
    (hfd : sys.opendir ("/proc/".toList ++ e.d_name ++ "/fd".toList) = some fds)
    (hd : d ∈ fds) (hlnk : d.d_type = DType.DT_LNK)
    (hD : D ≠ []) (hDnum : ∀ c ∈ D, isdigit c = true) (hval : decimal_value D = pipe_id)
    (hlen : (pipe_marker ++ D ++ [']']).length ≤ PATH_MAX)
    (hlink : sys.readlink
      ("/proc/".toList ++ e.d_name ++ "/fd".toList ++ ['/'] ++ d.d_name) =
        some (pipe_marker ++ D ++ [']'])) :
    check_pipe_reader sys mypid ppid pipe_id = Outcome.sleep_then_exit 3 1 := by
  have hget : get_pipe_id sys
      ("/proc/".toList ++ e.d_name ++ "/fd".toList ++ ['/'] ++ d.d_name) = pipe_id := by
    rw [get_pipe_id_of_digits sys _ D hD hDnum hlen hlink, hval,
      if_neg (Nat.not_lt.mpr hid)]
  unfold check_pipe_reader
  rw [hproc]
  simp only
  clear hproc
  induction entries with
  | nil => simp at he
  | cons x rest ih =>
    rcases List.mem_cons.mp he with rfl | hmem
    · exact scan_proc_dir_hit sys mypid ppid pipe_id e rest fds d hmy hpp hdir hname hnum
        hpos hself hpar hfd hd hlnk hget
    · rcases scan_proc_dir_step sys mypid ppid pipe_id x rest with hs | hs
      · rw [hs]; exact ih hmem
      · exact hs.2.2.2.2.2.choose_spec.2.2

/-- C4.  Let the caller and its parent have PIDs `mypid` and `ppid` (values of `pid_t`)
and let `pipe_id` be an `unsigned long`.  If `/proc` lists a directory entry whose name
is a non-empty run of digits denoting a positive number other than `mypid` and `ppid`,
if the descriptor directory of that entry can be opened and holds a symbolic link whose
target is `pipe:[`, the decimal digits of `pipe_id`, and `]`, then `check_pipe_reader`
does not return: it sleeps 3 seconds and exits with status 1. -/
theorem check_pipe_reader_detects (sys : Sys) (mypid ppid pipe_id : Nat)
    (entries fds : List Dirent) (e d : Dirent)
    (hmy : mypid ≤ INT_MAX) (hpp : ppid ≤ INT_MAX) (hid : pipe_id ≤ ULONG_MAX)
    (hproc : sys.opendir "/proc".toList = some entries)
    (he : e ∈ entries) (hdir : e.d_type = DType.DT_DIR)
    (hname : e.d_name ≠ []) (hnum : ∀ c ∈ e.d_name, isdigit c = true)
    (hpos : decimal_value e.d_name ≠ 0)
    (hself : decimal_value e.d_name ≠ mypid) (hpar : decimal_value e.d_name ≠ ppid)
    (hfd : sys.opendir ("/proc/".toList ++ e.d_name ++ "/fd".toList) = some fds)
    (hd : d ∈ fds) (hlnk : d.d_type = DType.DT_LNK)
    (hlink : sys.readlink
      ("/proc/".toList ++ e.d_name ++ "/fd".toList ++ ['/'] ++ d.d_name) =
        some (pipe_marker ++ Nat.toDigits 10 pipe_id ++ [']'])) :
    check_pipe_reader sys mypid ppid pipe_id = Outcome.sleep_then_exit 3 1 := by
  obtain ⟨hval, hne, hdig⟩ := toDigits_spec pipe_id
  have hlen : (pipe_marker ++ Nat.toDigits 10 pipe_id ++ [']']).length ≤ PATH_MAX := by
    have h20 := toDigits_length pipe_id hid
    simp only [List.length_append, List.length_singleton, pipe_marker, List.length_cons,
      List.length_nil, PATH_MAX]
    omega
  exact scan_detects_digit_target sys mypid ppid pipe_id entries fds e d
    (Nat.toDigits 10 pipe_id) hmy hpp hid hproc he hdir hname hnum hpos hself hpar hfd hd
    hlnk hne hdig hval hlen hlink

/-- C4 at a pipe that process 7 holds besides the caller. -/
theorem check_pipe_reader_detects_witness :
    check_pipe_reader sys_example 100 99 98765 = Outcome.sleep_then_exit 3 1 :=
  check_pipe_reader_detects sys_example 100 99 98765
    [⟨".".toList, DType.DT_DIR⟩, ⟨"..".toList, DType.DT_DIR⟩,
      ⟨"7".toList, DType.DT_DIR⟩, ⟨"100".toList, DType.DT_DIR⟩,
      ⟨"self".toList, DType.DT_LNK⟩, ⟨"uptime".toList, DType.DT_REG⟩]
    [⟨".".toList, DType.DT_DIR⟩, ⟨"..".toList, DType.DT_DIR⟩,
      ⟨"0".toList, DType.DT_LNK⟩, ⟨"1".toList, DType.DT_LNK⟩]
    ⟨"7".toList, DType.DT_DIR⟩ ⟨"1".toList, DType.DT_LNK⟩
    (by decide) (by decide) (by decide) (by decide) (by decide) (by decide) (by decide)
    (by decide) (by decide) (by decide) (by decide) (by decide) (by decide) (by decide)
    (by decide)

/-! ## Lifecycle helpers: `AutoCleaner`, `is_symlink`, `mkdir_recursive` -/

theorem stat_eq {σ : Type} (k : Kernel σ) (w : World σ) (path : List Char) :
    stat k w path =
      (⟨w.state, w.trace ++ [Call.stat path (stat_answer k w.state path)]⟩,
        stat_answer k w.state path) := by
  unfold stat stat_answer
  cases k.stat w.state path <;> rfl

theorem is_dir_eq {σ : Type} (k : Kernel σ) (w : World σ) (path : List Char) :
    is_dir k w path =
      (⟨w.state, w.trace ++ [Call.stat path (stat_answer k w.state path)]⟩,
        decide (stat_answer k w.state path = some FileType.S_IFDIR)) := by
  unfold is_dir
  rw [stat_eq]
  cases h : stat_answer k w.state path with
  | none => simp
  | some t => cases t <;> simp [S_ISDIR]

theorem is_symlink_eq {σ : Type} (k : Kernel σ) (w : World σ) (path : List Char) :
    is_symlink k w path =
      (⟨w.state, w.trace ++ [Call.stat path (stat_answer k w.state path)]⟩,
        decide (stat_answer k w.state path = some FileType.S_IFLNK)) := by
  unfold is_symlink
  rw [stat_eq]
  cases h : stat_answer k w.state path with
  | none => simp
  | some t => cases t <;> simp [S_ISLNK]

theorem stat_answer_ne_lnk {σ : Type} (k : Kernel σ) (hk : Posix k) (s : σ)
    (path : List Char) : stat_answer k s path ≠ some FileType.S_IFLNK := by
  unfold stat_answer
  cases h : k.stat s path with
  | error e => simp
  | ok t =>
    intro heq
    simp only [Option.some.injEq] at heq
    subst heq
    exact hk.stat_follows_links s path h

theorem is_symlink_eq_false {σ : Type} (k : Kernel σ) (hk : Posix k) (w : World σ)
    (path : List Char) : (is_symlink k w path).2 = false := by
  rw [is_symlink_eq]
  simp [stat_answer_ne_lnk k hk]

theorem vfs_kernel_posix : Posix vfs_kernel := by
  refine ⟨?_, ?_, ?_⟩
  · intro v path
    show Vfs.stat v path ≠ Except.ok FileType.S_IFLNK
    unfold Vfs.stat
    cases Vfs.resolve v true true path with
    | error e => simp
    | ok name =>
      simp only [Vfs.type_at]
      cases v.lookup name with
      | none => simp
      | some node => cases node <;> simp
  · intro v
    show Vfs.stat v [] = Except.error ENOENT
    simp [Vfs.stat, Vfs.resolve]
  · intro v mode
    show Vfs.mkdir v [] = Except.error ENOENT
    simp [Vfs.mkdir, Vfs.resolve]

/-- The example file system resolves paths as a kernel does: a trailing slash, a doubled
slash, `.` and `..` and a path relative to the working directory all reach `/tmp`, and
a link is followed by `stat`. -/
theorem vfs_kernel_resolution :
    (is_dir vfs_kernel ⟨vfs_example, []⟩ "/tmp/".toList).2 = true ∧
    (is_dir vfs_kernel ⟨vfs_example, []⟩ "/tmp/d/.".toList).2 = true ∧
    (is_dir vfs_kernel ⟨vfs_example, []⟩ "//tmp".toList).2 = true ∧
    (is_dir vfs_kernel ⟨vfs_example, []⟩ "/tmp/../tmp".toList).2 = true ∧
    (is_dir vfs_kernel ⟨vfs_example, []⟩ "tmp".toList).2 = true ∧
    (is_dir vfs_kernel ⟨vfs_example, []⟩ "/tmp/x".toList).2 = false ∧
    (is_dir vfs_kernel ⟨vfs_example, []⟩ "/nope".toList).2 = false ∧
    vfs_kernel.stat vfs_example "/tmp/l".toList = Except.ok FileType.S_IFREG ∧
    (mkdir_recursive vfs_kernel ⟨vfs_example, []⟩ "/tmp//d".toList S_IRWXU).map
        (fun r => (r.2, r.1.trace.filter Call.is_mkdir)) = some (0, []) ∧
    (mkdir_recursive vfs_kernel ⟨vfs_example, []⟩ "q/r".toList S_IRWXU).map
        (fun r => (r.2, r.1.trace.filter Call.is_mkdir)) =
      some (0, [Call.mkdir "q".toList S_IRWXU none, Call.mkdir "q/r".toList S_IRWXU none]) :=
  ⟨by rfl, by rfl, by rfl, by rfl, by rfl, by rfl, by rfl, by rfl, by decide, by decide⟩

/-- C7 fails on the code.  `/tmp/l` is a symbolic link in `vfs_example`, as `lstat` reports,
yet `is_symlink` answers false for it; it answers false for every path in every state
of the example file system, and in every system whose `stat` follows links, as POSIX
has it. -/
theorem is_symlink_never_true :
    vfs_kernel.lstat vfs_example "/tmp/l".toList = Except.ok FileType.S_IFLNK ∧
    (is_symlink vfs_kernel ⟨vfs_example, []⟩ "/tmp/l".toList).2 = false ∧
    (∀ (v : Vfs) (trace : List Call) (path : List Char),
      (is_symlink vfs_kernel ⟨v, trace⟩ path).2 = false) ∧
    ∀ (σ : Type) (k : Kernel σ), Posix k → ∀ (w : World σ) (path : List Char),
      (is_symlink k w path).2 = false :=
  ⟨by rfl, by rfl, fun v trace path => is_symlink_eq_false vfs_kernel vfs_kernel_posix _ path,
   fun _ k hk w path => is_symlink_eq_false k hk w path⟩

theorem mkdir_unless_dir_present {σ : Type} (k : Kernel σ) (mode : Nat) (w : World σ)
    (tmp : List Char) (h : stat_answer k w.state tmp = some FileType.S_IFDIR) :
    mkdir_unless_dir k mode w tmp =
      (⟨w.state, w.trace ++ [Call.stat tmp (some FileType.S_IFDIR)]⟩, false) := by
  unfold mkdir_unless_dir
  rw [is_dir_eq]
  simp [h]

theorem mkdir_unless_dir_created {σ : Type} (k : Kernel σ) (mode : Nat) (w : World σ)
    (tmp : List Char) (s1 : σ) (h : stat_answer k w.state tmp ≠ some FileType.S_IFDIR)
    (hm : k.mkdir w.state tmp mode = Except.ok s1) :
    mkdir_unless_dir k mode w tmp =
      (⟨s1, w.trace ++
        [Call.stat tmp (stat_answer k w.state tmp), Call.mkdir tmp mode none]⟩, false) := by
  unfold mkdir_unless_dir
  rw [is_dir_eq]
  simp [h, mkdir, hm]

theorem mkdir_unless_dir_failed {σ : Type} (k : Kernel σ) (mode : Nat) (w : World σ)
    (tmp : List Char) (e : Errno) (h : stat_answer k w.state tmp ≠ some FileType.S_IFDIR)
    (hm : k.mkdir w.state tmp mode = Except.error e) :
    mkdir_unless_dir k mode w tmp =
      (⟨w.state, w.trace ++
        [Call.stat tmp (stat_answer k w.state tmp), Call.mkdir tmp mode (some e)]⟩, true) := by
  unfold mkdir_unless_dir
  rw [is_dir_eq]
  simp [h, mkdir, hm]

theorem mkdir_candidates_from_nil (before : List Char) :
    mkdir_candidates_from before [] = [before] := by
  simp [mkdir_candidates_from]

theorem mkdir_candidates_from_cons (before : List Char) (c : Char) (after : List Char) :
    mkdir_candidates_from before (c :: after) =
      (if c = '/' then [before] else []) ++ mkdir_candidates_from (before ++ [c]) after := by
  unfold mkdir_candidates_from
  rw [List.inits_cons, List.filter_cons, List.filter_map]
  have hfun : ((fun q : List Char =>
        decide (q.length < (c :: after).length ∧ (c :: after).get? q.length = some '/')) ∘
        fun t => c :: t) =
      fun q : List Char => decide (q.length < after.length ∧ after.get? q.length = some '/') := by
    funext q
    simp
  rw [hfun]
  by_cases hc : c = '/'
  · simp [hc]
  · simp [hc]

theorem mkdir_candidates_eq (tmp : List Char) :
    mkdir_candidates tmp = mkdir_candidates_from (tmp.take 1) (tmp.drop 1) := by
  cases tmp with
  | nil => simp [mkdir_candidates, mkdir_candidates_from]
  | cons t rest =>
    unfold mkdir_candidates mkdir_candidates_from
    rw [List.inits_cons, List.filter_cons, List.filter_map]
    have hfun : ((fun q : List Char =>
          decide (0 < q.length ∧ q.length < (t :: rest).length ∧
            (t :: rest).get? q.length = some '/')) ∘ fun x => t :: x) =
        fun q : List Char => decide (q.length < rest.length ∧ rest.get? q.length = some '/') := by
      funext q
      simp
    rw [hfun]
    simp

theorem mkdir_walk_run {σ : Type} (k : Kernel σ) (mode : Nat) (after : List Char) :
    ∀ (s : σ) (trace : List Call) (before : List Char),
      ∃ evs ret s', mkdir_walk k mode ⟨s, trace⟩ before after = (⟨s', trace ++ evs⟩, ret) ∧
        EnsureRun k mode s (mkdir_candidates_from before after) evs ret s' := by
  induction after with
  | nil =>
    intro s trace before
    rw [mkdir_candidates_from_nil]
    unfold mkdir_walk
    by_cases hd : stat_answer k s before = some FileType.S_IFDIR
    · rw [mkdir_unless_dir_present k mode ⟨s, trace⟩ before hd]
      exact ⟨_, 0, s, rfl, EnsureRun.present s s before [] [] 0 hd (EnsureRun.done s)⟩
    · cases hm : k.mkdir s before mode with
      | ok s1 =>
        rw [mkdir_unless_dir_created k mode ⟨s, trace⟩ before s1 hd hm]
        exact ⟨_, 0, s1, rfl, EnsureRun.created s s1 s1 before [] [] 0 hd hm (EnsureRun.done s1)⟩
      | error e =>
        rw [mkdir_unless_dir_failed k mode ⟨s, trace⟩ before e hd hm]
        exact ⟨_, -1, s, rfl, EnsureRun.failed s before [] e hd hm⟩
  | cons c after ih =>
    intro s trace before
    rw [mkdir_candidates_from_cons]
    unfold mkdir_walk
    by_cases hc : c = '/'
    · rw [if_pos hc, if_pos hc]
      by_cases hd : stat_answer k s before = some FileType.S_IFDIR
      · rw [mkdir_unless_dir_present k mode ⟨s, trace⟩ before hd]
        obtain ⟨evs, ret, s', hrun, hspec⟩ := ih s
          (trace ++ [Call.stat before (some FileType.S_IFDIR)]) (before ++ [c])
        refine ⟨Call.stat before (some FileType.S_IFDIR) :: evs, ret, s', ?_, ?_⟩
        · simp only [Bool.false_eq_true, if_false]
          rw [hrun]
          simp
        · exact EnsureRun.present s s' before _ evs ret hd hspec
      · cases hm : k.mkdir s before mode with
        | ok s1 =>
          rw [mkdir_unless_dir_created k mode ⟨s, trace⟩ before s1 hd hm]
          obtain ⟨evs, ret, s', hrun, hspec⟩ := ih s1
            (trace ++ [Call.stat before (stat_answer k s before), Call.mkdir before mode none])
            (before ++ [c])
          refine ⟨Call.stat before (stat_answer k s before) :: Call.mkdir before mode none :: evs,
            ret, s', ?_, ?_⟩
          · simp only [Bool.false_eq_true, if_false]
            rw [hrun]
            simp
          · exact EnsureRun.created s s1 s' before _ evs ret hd hm hspec
        | error e =>
          rw [mkdir_unless_dir_failed k mode ⟨s, trace⟩ before e hd hm]
          exact ⟨_, -1, s, rfl, EnsureRun.failed s before _ e hd hm⟩
    · rw [if_neg hc, if_neg hc]
      simpa using ih s trace (before ++ [c])

theorem EnsureRun.result {σ : Type} {k : Kernel σ} {mode : Nat} {s s' : σ}
    {cs : List (List Char)} {evs : List Call} {ret : Int}
    (h : EnsureRun k mode s cs evs ret s') :
    (ret = 0 ∨ ret = -1) ∧ (ret = -1 ↔ ∃ c e, Call.mkdir c mode (some e) ∈ evs) := by
  induction h with
  | done s => simp
  | present s s' c cs evs ret _ _ ih =>
    refine ⟨ih.1, ?_⟩
    rw [ih.2]
    simp
  | created s s1 s' c cs evs ret _ _ _ ih =>
    refine ⟨ih.1, ?_⟩
    rw [ih.2]
    simp
  | failed s c cs e _ _ =>
    refine ⟨Or.inr rfl, ?_⟩
    simp

/-- C6 fails on the code.  `/` is a directory of `vfs_example`, yet `mkdir_recursive` on `/`
returns -1: the trailing slash is cut, the path left is empty, `stat` fails on it and
so does the one `mkdir` call, with `ENOENT`.  The same happens in every system in which
the empty path names nothing, as POSIX has it. -/
theorem mkdir_recursive_root_fails :
    (is_dir vfs_kernel ⟨vfs_example, []⟩ "/".toList).2 = true ∧
    mkdir_recursive vfs_kernel ⟨vfs_example, []⟩ "/".toList S_IRWXU =
      some (⟨vfs_example, [Call.stat [] none, Call.mkdir [] S_IRWXU (some ENOENT)]⟩, -1) ∧
    ∀ (σ : Type) (k : Kernel σ), Posix k → ∀ (w : World σ) (mode : Nat),
      mkdir_recursive k w "/".toList mode =
        some (⟨w.state, w.trace ++ [Call.stat [] none, Call.mkdir [] mode (some ENOENT)]⟩,
          -1) := by
  refine ⟨by rfl, by decide, ?_⟩
  intro σ k hk w mode
  have hst : stat_answer k w.state [] = none := by
    simp [stat_answer, hk.stat_empty_path]
  have hne : stat_answer k w.state [] ≠ some FileType.S_IFDIR := by simp [hst]
  have hstep := mkdir_unless_dir_failed k mode w [] ENOENT hne (hk.mkdir_empty_path _ _)
  rw [hst] at hstep
  have h3 : mkdir_recursive k w "/".toList mode = some (mkdir_walk k mode w [] []) := by
    simp [mkdir_recursive, mkdir_tmp, PATH_MAX]
  rw [h3]
  unfold mkdir_walk
  rw [hstep]
  simp

/-- C8, as stated, fails.  `/a` is a regular file of `vfs_example`; `mkdir_recursive` on
`/a` issues one `mkdir` call, which fails with `EEXIST`, and returns -1 although no
call failed for another reason than "already exists". -/
theorem mkdir_recursive_fails_on_existing_file :
    mkdir_recursive vfs_kernel ⟨vfs_example, []⟩ "/a".toList S_IRWXU =
      some (⟨vfs_example, [Call.stat "/a".toList (some FileType.S_IFREG),
        Call.mkdir "/a".toList S_IRWXU (some EEXIST)]⟩, -1) ∧
    [Call.stat "/a".toList (some FileType.S_IFREG),
        Call.mkdir "/a".toList S_IRWXU (some EEXIST)].filter Call.is_mkdir =
      [Call.mkdir "/a".toList S_IRWXU (some EEXIST)] := by
  decide

/-- C8, as the code has it.  On a non-empty path of fewer than `PATH_MAX` characters
`mkdir_recursive` returns, with -1 or with 0, and its run is the one that ensures in
turn, from left to right, the leading parts of the path that a `/` follows and then
the path itself (one trailing `/` apart): each is looked at with `stat`, and `mkdir` is
issued for it only when `stat` did not report a directory.  The function returns -1
if and only if one of the `mkdir` calls it issued failed, whatever the error, `EEXIST`
included, and it returns right after that call. -/
theorem mkdir_recursive_fails_iff {σ : Type} (k : Kernel σ) (w : World σ) (dir : List Char)
    (mode : Nat) (hne : dir ≠ []) (hlen : dir.length < PATH_MAX) :
    ∃ evs ret s', mkdir_recursive k w dir mode = some (⟨s', w.trace ++ evs⟩, ret) ∧
      EnsureRun k mode w.state (mkdir_candidates (mkdir_tmp dir)) evs ret s' ∧
      (ret = -1 ↔ ∃ c e, Call.mkdir c mode (some e) ∈ evs) ∧
      (ret ≠ -1 → ret = 0) ∧
      (∀ c ∈ mkdir_candidates (mkdir_tmp dir), c <+: dir) := by
  have hdef : ¬ (dir = [] ∨ PATH_MAX ≤ dir.length) := by
    rintro (h | h)
    · exact hne h
    · omega
  obtain ⟨evs, ret, s', hrun, hspec⟩ := mkdir_walk_run k mode ((mkdir_tmp dir).drop 1)
    w.state w.trace ((mkdir_tmp dir).take 1)
  rw [← mkdir_candidates_eq] at hspec
  refine ⟨evs, ret, s', ?_, hspec, hspec.result.2, ?_, ?_⟩
  · unfold mkdir_recursive
    rw [if_neg hdef, ← hrun]
  · intro h
    rcases hspec.result.1 with h0 | h1
    · exact h0
    · exact absurd h1 h
  · intro c hc
    have htmp : mkdir_tmp dir <+: dir := by
      unfold mkdir_tmp
      split
      · exact List.dropLast_prefix dir
      · exact List.prefix_refl dir
    unfold mkdir_candidates at hc
    rcases List.mem_append.mp hc with h1 | h1
    · have := (List.mem_inits _ _).mp (List.mem_of_mem_filter h1)
      exact this.trans htmp
    · simp only [List.mem_singleton] at h1
      subst h1
      exact htmp

/-- C8 at a path with two missing components. -/
theorem mkdir_recursive_fails_iff_witness :
    "/tmp/q/r".toList ≠ [] ∧ "/tmp/q/r".toList.length < PATH_MAX ∧
    ∃ evs ret s',
      mkdir_recursive vfs_kernel ⟨vfs_example, []⟩ "/tmp/q/r".toList S_IRWXU =
        some (⟨s', [] ++ evs⟩, ret) ∧
      EnsureRun vfs_kernel S_IRWXU vfs_example
        (mkdir_candidates (mkdir_tmp "/tmp/q/r".toList)) evs ret s' ∧
      (ret = -1 ↔ ∃ c e, Call.mkdir c S_IRWXU (some e) ∈ evs) ∧
      (ret ≠ -1 → ret = 0) ∧
      (∀ c ∈ mkdir_candidates (mkdir_tmp "/tmp/q/r".toList), c <+: "/tmp/q/r".toList) :=
  ⟨by decide, by decide,
   mkdir_recursive_fails_iff vfs_kernel ⟨vfs_example, []⟩ "/tmp/q/r".toList S_IRWXU
     (by decide) (by decide)⟩

theorem add_all_eq {σ : Type} (paths : List (List Char)) :
    ∀ (self : AutoCleaner) (w : World σ),
      AutoCleaner.add_all self w paths = (⟨self.m_paths ++ paths⟩, w) := by
  induction paths with
  | nil => intro self w; simp [AutoCleaner.add_all]
  | cons p ps ih =>
    intro self w
    rw [AutoCleaner.add_all, ih]
    simp [AutoCleaner.add]

theorem nftw_loop_remove_run {σ : Type} (k : Kernel σ) (qs : List (List Char)) :
    ∀ (s : σ) (trace : List Call),
      ∃ walk s1, nftw_loop (_remove_file k) ⟨s, trace⟩ qs = (⟨s1, trace ++ walk⟩, 0) ∧
        RemoveRun k s qs walk s1 := by
  induction qs with
  | nil =>
    intro s trace
    exact ⟨[], s, by simp [nftw_loop], RemoveRun.done s⟩
  | cons q qs ih =>
    intro s trace
    unfold nftw_loop
    have hret : (_remove_file k ⟨s, trace⟩ q).2 = 0 := rfl
    rw [if_neg (by rw [hret]; simp)]
    cases hr : k.remove s q with
    | ok s1 =>
      have hw : (_remove_file k ⟨s, trace⟩ q).1 = ⟨s1, trace ++ [Call.remove q none]⟩ := by
        simp [_remove_file, remove, hr]
      rw [hw]
      obtain ⟨walk, s2, hrun, hspec⟩ := ih s1 (trace ++ [Call.remove q none])
      refine ⟨Call.remove q none :: walk, s2, ?_, RemoveRun.removed s s1 s2 q qs walk hr hspec⟩
      rw [hrun]
      simp
    | error e =>
      have hw : (_remove_file k ⟨s, trace⟩ q).1 = ⟨s, trace ++ [Call.remove q (some e)]⟩ := by
        simp [_remove_file, remove, hr]
      rw [hw]
      obtain ⟨walk, s2, hrun, hspec⟩ := ih s (trace ++ [Call.remove q (some e)])
      refine ⟨Call.remove q (some e) :: walk, s2, ?_, RemoveRun.kept s s2 q qs walk e hr hspec⟩
      rw [hrun]
      simp

theorem destroy_run {σ : Type} (k : Kernel σ) (paths : List (List Char)) :
    ∀ (s : σ) (trace : List Call),
      ∃ evs s', AutoCleaner.destroy k ⟨paths⟩ ⟨s, trace⟩ = ⟨s', trace ++ evs⟩ ∧
        CleanupRun k s paths evs s' := by
  induction paths with
  | nil =>
    intro s trace
    exact ⟨[], s, by simp [AutoCleaner.destroy], CleanupRun.done s⟩
  | cons p ps ih =>
    intro s trace
    have hstep : AutoCleaner.destroy k ⟨p :: ps⟩ ⟨s, trace⟩ =
        AutoCleaner.destroy k ⟨ps⟩ (AutoCleaner.delete_path k ⟨s, trace⟩ p) := rfl
    rw [hstep]
    unfold AutoCleaner.delete_path
    rw [is_dir_eq]
    by_cases hd : stat_answer k s p = some FileType.S_IFDIR
    · simp only [hd, decide_True, if_true]
      unfold remove_directory nftw
      obtain ⟨walk, s1, hwalk, hspec⟩ := nftw_loop_remove_run k
        (k.nftw_visits s p (FTW_DEPTH ||| FTW_PHYS)) s
        (trace ++ [Call.stat p (some FileType.S_IFDIR)] ++
          [Call.nftw p 10 (FTW_DEPTH ||| FTW_PHYS)])
      simp only
      rw [hwalk]
      obtain ⟨rest, s', hrun, hrest⟩ := ih s1
        (trace ++ [Call.stat p (some FileType.S_IFDIR)] ++
          [Call.nftw p 10 (FTW_DEPTH ||| FTW_PHYS)] ++ walk)
      refine ⟨Call.stat p (some FileType.S_IFDIR) :: Call.nftw p 10 (FTW_DEPTH ||| FTW_PHYS) ::
        (walk ++ rest), s', ?_, CleanupRun.directory s s1 s' p ps walk rest hd hspec hrest⟩
      rw [hrun]
      simp
    · simp only [hd, decide_False, Bool.false_eq_true, if_false]
      cases hu : k.unlink s p with
      | ok s1 =>
        have hw : (unlink k ⟨s, trace ++ [Call.stat p (stat_answer k s p)]⟩ p).1 =
            ⟨s1, trace ++ [Call.stat p (stat_answer k s p)] ++ [Call.unlink p none]⟩ := by
          simp [unlink, hu]
        rw [hw]
        obtain ⟨rest, s', hrun, hrest⟩ := ih s1
          (trace ++ [Call.stat p (stat_answer k s p)] ++ [Call.unlink p none])
        refine ⟨Call.stat p (stat_answer k s p) :: Call.unlink p none :: rest, s', ?_,
          CleanupRun.unlinked s s1 s' p ps rest hd hu hrest⟩
        rw [hrun]
        simp
      | error e =>
        have hw : (unlink k ⟨s, trace ++ [Call.stat p (stat_answer k s p)]⟩ p).1 =
            ⟨s, trace ++ [Call.stat p (stat_answer k s p)] ++ [Call.unlink p (some e)]⟩ := by
          simp [unlink, hu]
        rw [hw]
        obtain ⟨rest, s', hrun, hrest⟩ := ih s
          (trace ++ [Call.stat p (stat_answer k s p)] ++ [Call.unlink p (some e)])
        refine ⟨Call.stat p (stat_answer k s p) :: Call.unlink p (some e) :: rest, s', ?_,
          CleanupRun.missed s s' p ps rest e hd hu hrest⟩
        rw [hrun]
        simp

theorem RemoveRun.no_deletion {σ : Type} {k : Kernel σ} {s s' : σ} {qs : List (List Char)}
    {walk : List Call} (h : RemoveRun k s qs walk s') :
    walk.filter Call.is_deletion = [] ∧ walk.map Call.path = qs := by
  induction h with
  | done s => simp
  | removed s s1 s' q qs evs _ _ ih =>
    simp [Call.is_deletion, Call.path, ih.1, ih.2]
  | kept s s' q qs evs e _ _ ih =>
    simp [Call.is_deletion, Call.path, ih.1, ih.2]

theorem CleanupRun.deletions {σ : Type} {k : Kernel σ} {s s' : σ} {ps : List (List Char)}
    {evs : List Call} (h : CleanupRun k s ps evs s') :
    (evs.filter Call.is_deletion).map Call.path = ps := by
  induction h with
  | done s => simp
  | directory s s1 s' p ps walk rest _ hwalk _ ih =>
    simp [Call.is_deletion, Call.path, hwalk.no_deletion.1, ih]
  | unlinked s s1 s' p ps rest _ _ _ ih =>
    simp [Call.is_deletion, Call.path, ih]
  | missed s s' p ps rest e _ _ _ ih =>
    simp [Call.is_deletion, Call.path, ih]

/-- C5.  Registering the paths `p1 .. pn` with `add` issues no call, leaves the file
system as it is and stores the paths in order.  The run of the destructor is then the
one that deletes the registered paths in turn, in registration order: each path is
looked at with `stat`; when `stat` reports a directory in the file system of that
moment the path goes to `nftw` with `_remove_file`, which applies `remove` to every
path name the walk visits, and otherwise it goes to `unlink`; a call that fails, as
for a path that names nothing any more, is passed over and the paths behind it are
still processed.  Of the calls issued, the deleting ones (`nftw`, `unlink`) are n in
number, one per registered path, in registration order. -/
theorem AutoCleaner_deletes_each_once {σ : Type} (k : Kernel σ) (w : World σ)
    (paths : List (List Char)) :
    AutoCleaner.add_all ⟨[]⟩ w paths = (⟨paths⟩, w) ∧
    ∃ evs s',
      AutoCleaner.destroy k (AutoCleaner.add_all ⟨[]⟩ w paths).1
          (AutoCleaner.add_all ⟨[]⟩ w paths).2 = ⟨s', w.trace ++ evs⟩ ∧
      CleanupRun k w.state paths evs s' ∧
      (evs.filter Call.is_deletion).map Call.path = paths ∧
      (evs.filter Call.is_deletion).length = paths.length := by
  have hreg : AutoCleaner.add_all ⟨[]⟩ w paths = (⟨paths⟩, w) := by
    rw [add_all_eq]
    simp
  refine ⟨hreg, ?_⟩
  rw [hreg]
  obtain ⟨evs, s', hrun, hspec⟩ := destroy_run k paths w.state w.trace
  refine ⟨evs, s', hrun, hspec, hspec.deletions, ?_⟩
  rw [← List.length_map (evs.filter Call.is_deletion) Call.path, hspec.deletions]

/-- C5 at a directory with a file in it, that file, a symbolic link and a path that
names nothing: all that was registered is gone afterwards. -/
theorem AutoCleaner_deletes_each_once_witness :
    AutoCleaner.destroy vfs_kernel
        ⟨["/tmp/d/".toList, "/tmp/d/f".toList, "/tmp/l".toList, "/nope".toList]⟩
        ⟨vfs_example, []⟩ =
      ⟨⟨[(["a".toList], Node.reg), (["tmp".toList], Node.dir),
          (["tmp".toList, "x".toList], Node.reg)], []⟩,
       [Call.stat "/tmp/d/".toList (some FileType.S_IFDIR),
        Call.nftw "/tmp/d/".toList 10 9,
        Call.remove "/tmp/d/f".toList none,
        Call.remove "/tmp/d".toList none,
        Call.stat "/tmp/d/f".toList none,
        Call.unlink "/tmp/d/f".toList (some ENOENT),
        Call.stat "/tmp/l".toList (some FileType.S_IFREG),
        Call.unlink "/tmp/l".toList none,
        Call.stat "/nope".toList none,
        Call.unlink "/nope".toList (some ENOENT)]⟩ ∧
    ∃ evs s',
      AutoCleaner.destroy vfs_kernel
          (AutoCleaner.add_all ⟨[]⟩ (⟨vfs_example, []⟩ : World Vfs)
            ["/tmp/d/".toList, "/tmp/d/f".toList, "/tmp/l".toList, "/nope".toList]).1
          (AutoCleaner.add_all ⟨[]⟩ (⟨vfs_example, []⟩ : World Vfs)
            ["/tmp/d/".toList, "/tmp/d/f".toList, "/tmp/l".toList, "/nope".toList]).2 =
        ⟨s', [] ++ evs⟩ ∧
      CleanupRun vfs_kernel vfs_example
        ["/tmp/d/".toList, "/tmp/d/f".toList, "/tmp/l".toList, "/nope".toList] evs s' ∧
      (evs.filter Call.is_deletion).map Call.path =
        ["/tmp/d/".toList, "/tmp/d/f".toList, "/tmp/l".toList, "/nope".toList] ∧
      (evs.filter Call.is_deletion).length = 4 :=
  ⟨by decide,
   (AutoCleaner_deletes_each_once vfs_kernel ⟨vfs_example, []⟩
     ["/tmp/d/".toList, "/tmp/d/f".toList, "/tmp/l".toList, "/nope".toList]).2⟩


end Utils
